import Mathlib

/-!
Verification of the streaming response reassembly and multi-cell code-migration
engine of the qiskit-code-assistant-jupyterlab extension.

Shallow embedding conventions:

* JavaScript strings are modelled as `List Char`.  All inputs exercised by the
  claims are ASCII, where a JS UTF-16 code unit corresponds exactly to one
  `Char`, so JS `.length`, `.substring`, `.slice` agree with list length,
  `take`/`drop`.
* JS `Map<number, string>` with the `map.get(k) || ''` access pattern used by
  the source is modelled as a total function `Nat → List Char` defaulting to
  `[]` (the source never distinguishes an absent key from a stored `''`).
* Thrown exceptions are modelled with `Except`; UI effects
  (`Notification.*`, `console.*`, status-bar spinner DOM updates) carry no
  data consumed by the algorithms and are either dropped or, for the
  busy-indicator claims, modelled as an explicit event trace.
* Cell mutation `cells[i].model.sharedModel.setSource(v)` is modelled by
  recording write events `(i, v)` in program order and folding them over the
  list of cell contents with `updateCellSafely`; the source never reads a
  cell's content back during a migration run, so this is equivalent to
  in-place mutation.
-/

/-! ## JS string helpers -/

/-- The whitespace characters recognised by JS `trim` / `trimStart`
    (ASCII part; the full JS set also has Unicode spaces, not exercised
    by any input in this development). -/
def jsIsWs (c : Char) : Bool :=
  c = ' ' || c = '\t' || c = '\n' || c = '\r' || c = '\x0b' || c = '\x0c'

/-- JS `String.prototype.trimStart`. -/
def trimStartL (l : List Char) : List Char := l.dropWhile jsIsWs

/-- JS `String.prototype.trim` (both ends). -/
def trimL (l : List Char) : List Char :=
  ((l.dropWhile jsIsWs).reverse.dropWhile jsIsWs).reverse

/-- JS `buffer.split('\n')`: always returns at least one segment;
    `"".split('\n') = [""]`. -/
def splitNl : List Char → List (List Char)
  | [] => [[]]
  | c :: tl =>
    if c = '\n' then [] :: splitNl tl
    else
      match splitNl tl with
      | [] => [[c]]
      | h :: t => (c :: h) :: t

theorem splitNl_ne_nil (l : List Char) : splitNl l ≠ [] := by
  induction l with
  | nil => simp [splitNl]
  | cons c tl ih =>
    simp only [splitNl]
    by_cases h : c = '\n'
    · simp [h]
    · simp only [if_neg h]
      cases hs : splitNl tl with
      | nil => simp
      | cons h t => simp

/-- Interleave the segments with `'\n'` (inverse of `splitNl`). -/
def joinNl : List (List Char) → List Char
  | [] => []
  | [x] => x
  | x :: y :: t => x ++ '\n' :: joinNl (y :: t)

/-- Reconstruction: joining the split segments with `'\n'` gives back the
    input — the decoder's line splitting loses no characters. -/
theorem splitNl_reconstruct (l : List Char) :
    joinNl (splitNl l) = l := by
  induction l with
  | nil => simp [splitNl, joinNl]
  | cons c tl ih =>
    simp only [splitNl]
    by_cases h : c = '\n'
    · subst h
      simp only [if_pos rfl]
      cases hs : splitNl tl with
      | nil => exact absurd hs (splitNl_ne_nil tl)
      | cons x xs =>
        rw [hs] at ih
        simpa [joinNl] using ih
    · simp only [if_neg h]
      cases hs : splitNl tl with
      | nil => exact absurd hs (splitNl_ne_nil tl)
      | cons x xs =>
        rw [hs] at ih
        cases xs with
        | nil => simpa [joinNl] using ih
        | cons y ys =>
          simp only [joinNl] at ih ⊢
          simpa using ih

/-! ## Cell markers (`migration.ts`)

The source constants:
`NB_CELL_MARKER_PREFIX = '### Notebook_Cell_'`,
`NB_CELL_ID_REGEX = /### Notebook_Cell_\d+\n/`,
`NB_CELL_INDEX_REGEX = /^### Notebook_Cell_(\d+)/`,
`NB_CELL_MARKER_REGEX = /(?=### Notebook_Cell_\d+\n)/`. -/

/-- `NB_CELL_MARKER_PREFIX`. -/
def markerPre : List Char := "### Notebook_Cell_".data

/-- JS `parseInt(ds, 10)` on a non-empty digit string (exact for the digit
    counts arising here; JS would lose precision only beyond 2^53). -/
def digitsToNat (ds : List Char) : Nat :=
  ds.foldl (fun a c => a * 10 + (c.toNat - 48)) 0

/-- Match of `NB_CELL_ID_REGEX` anchored at the start of `s`: the literal
    prefix, one or more digits (greedy, so the maximal digit run must be
    followed by `'\n'` for the regex to match here), then `'\n'`.  Returns
    the parsed index (`NB_CELL_INDEX_REGEX` capture, `parseInt`-ed) and the
    text after the marker's newline. -/
def matchMarker (s : List Char) : Option (Nat × List Char) :=
  if markerPre.isPrefixOf s then
    let rest := s.drop markerPre.length
    let ds := rest.takeWhile (fun c => c.isDigit)
    if ds = [] then none
    else
      match rest.drop ds.length with
      | '\n' :: tail => some (digitsToNat ds, tail)
      | _ => none
  else none

/-- Leftmost match of `NB_CELL_ID_REGEX` in `s` (JS `buffer.search` plus the
    anchored `NB_CELL_INDEX_REGEX` parse, which always succeeds at a position
    found by `search`): returns the text before the marker, the parsed cell
    index, and the text after the marker's newline. -/
def splitFirstMarker : List Char → Option (List Char × Nat × List Char)
  | [] => none
  | c :: cs =>
    match matchMarker (c :: cs) with
    | some (i, r) => some ([], i, r)
    | none =>
      match splitFirstMarker cs with
      | some (p, i, r) => some (c :: p, i, r)
      | none => none

theorem drop_length_takeWhile (p : Char → Bool) (l : List Char) :
    l.drop (l.takeWhile p).length = l.dropWhile p := by
  induction l with
  | nil => simp
  | cons c tl ih =>
    by_cases h : p c
    · simp [List.takeWhile_cons, List.dropWhile_cons, h, ih]
    · simp [List.takeWhile_cons, List.dropWhile_cons, h]

theorem takeWhile_digits_append (ds r : List Char) (hdig : ∀ c ∈ ds, c.isDigit) :
    (ds ++ '\n' :: r).takeWhile (fun c => c.isDigit) = ds := by
  induction ds with
  | nil => simp [List.takeWhile_cons]
  | cons d tl ih =>
    have hd : d.isDigit := hdig d (by simp)
    simp only [List.cons_append, List.takeWhile_cons, hd, if_pos]
    rw [ih (fun c hc => hdig c (by simp [hc]))]

/-- Decomposition produced by a successful anchored marker match. -/
theorem matchMarker_decomp {s : List Char} {i : Nat} {r : List Char}
    (h : matchMarker s = some (i, r)) :
    ∃ ds : List Char, ds ≠ [] ∧ (∀ c ∈ ds, c.isDigit) ∧
      s = markerPre ++ ds ++ '\n' :: r ∧ i = digitsToNat ds := by
  unfold matchMarker at h
  by_cases hp : markerPre.isPrefixOf s
  · simp only [if_pos hp] at h
    set rest := s.drop markerPre.length with hrest
    set ds := rest.takeWhile (fun c => c.isDigit) with hds
    by_cases hne : ds = []
    · simp [hne] at h
    · simp only [if_neg hne] at h
      cases hdrop : rest.drop ds.length with
      | nil => rw [hdrop] at h; exact absurd h (by simp)
      | cons c tail =>
        rw [hdrop] at h
        by_cases hc : c = '\n'
        · subst hc
          simp only [Option.some.injEq, Prod.mk.injEq] at h
          refine ⟨ds, hne, ?_, ?_, h.1.symm⟩
          · intro c hc
            exact List.mem_takeWhile_imp (hds ▸ hc)
          · obtain ⟨t, ht⟩ := List.isPrefixOf_iff_prefix.mp hp
            have h1 : rest = t := by
              rw [hrest, ← ht, List.drop_left]
            have h2 : rest = ds ++ '\n' :: r := by
              conv_lhs => rw [← List.takeWhile_append_dropWhile
                (p := fun c => c.isDigit) (l := rest)]
              rw [← hds, ← drop_length_takeWhile (fun c => c.isDigit) rest,
                ← hds, hdrop, ← h.2]
            rw [← ht, ← h1, h2, List.append_assoc]
        · split at h <;> simp_all
  · simp [hp] at h

/-- Converse: an explicit marker decomposition makes `matchMarker` fire. -/
theorem matchMarker_of_decomp (ds r : List Char)
    (hne : ds ≠ []) (hdig : ∀ c ∈ ds, c.isDigit) :
    matchMarker (markerPre ++ ds ++ '\n' :: r) = some (digitsToNat ds, r) := by
  unfold matchMarker
  rw [if_pos ?_]
  · have hdrop : (markerPre ++ ds ++ '\n' :: r).drop markerPre.length
        = ds ++ '\n' :: r := by
      rw [List.append_assoc, List.drop_left]
    rw [hdrop]
    dsimp only
    rw [takeWhile_digits_append ds r hdig, if_neg hne, List.drop_left]
    rfl
  · rw [List.isPrefixOf_iff_prefix, List.append_assoc]
    exact List.prefix_append _ _

theorem splitFirstMarker_sound {s p : List Char} {i : Nat} {r : List Char}
    (h : splitFirstMarker s = some (p, i, r)) :
    ∃ ds : List Char, ds ≠ [] ∧ (∀ c ∈ ds, c.isDigit) ∧
      s = p ++ markerPre ++ ds ++ '\n' :: r ∧ i = digitsToNat ds := by
  induction s generalizing p with
  | nil => simp [splitFirstMarker] at h
  | cons c cs ih =>
    unfold splitFirstMarker at h
    cases hm : matchMarker (c :: cs) with
    | some v =>
      obtain ⟨i₀, r₀⟩ := v
      rw [hm] at h
      simp only [Option.some.injEq, Prod.mk.injEq] at h
      obtain ⟨hp, hi, hr⟩ := h
      obtain ⟨ds, hne, hdig, hdec, hval⟩ := matchMarker_decomp hm
      exact ⟨ds, hne, hdig, by rw [← hp, ← hr]; simpa using hdec, by rw [← hi]; exact hval⟩
    | none =>
      rw [hm] at h
      cases hs : splitFirstMarker cs with
      | some v =>
        obtain ⟨p', i', r'⟩ := v
        rw [hs] at h
        simp only [Option.some.injEq, Prod.mk.injEq] at h
        obtain ⟨hp, hi, hr⟩ := h
        obtain ⟨ds, hne, hdig, hdec, hval⟩ := ih (p := p') (hi ▸ hr ▸ hs)
        refine ⟨ds, hne, hdig, ?_, hval⟩
        rw [← hp]
        simpa using congrArg (c :: ·) hdec
      | none => rw [hs] at h; exact absurd h (by simp)

/-- Appending text to the right of a successful anchored match leaves the
    match unchanged (the digits are terminated by the `'\n'` already present). -/
theorem matchMarker_append {s : List Char} {i : Nat} {r : List Char}
    (e : List Char) (h : matchMarker s = some (i, r)) :
    matchMarker (s ++ e) = some (i, r ++ e) := by
  obtain ⟨ds, hne, hdig, hdec, hval⟩ := matchMarker_decomp h
  rw [hdec, List.append_assoc, List.append_assoc]
  have := matchMarker_of_decomp ds (r ++ e) hne hdig
  rw [List.append_assoc] at this
  simpa [hval] using this

/-- In `markerPre ++ ds ++ ['\n']` (a full marker) the character `'#'`
    occurs only at positions `0`, `1`, `2`. -/
theorem marker_hash_lt_three (ds : List Char) (k : Nat)
    (hdig : ∀ c ∈ ds, c.isDigit)
    (h : (markerPre ++ (ds ++ ['\n']))[k]? = some '#') : k < 3 := by
  by_cases hk : k < markerPre.length
  · rw [List.getElem?_append_left hk] at h
    have h18 : k < 18 := by simpa [markerPre] using hk
    interval_cases k <;> simp_all [markerPre]
  · rw [List.getElem?_append_right (Nat.le_of_not_lt hk)] at h
    by_cases hk2 : k - markerPre.length < ds.length
    · rw [List.getElem?_append_left hk2] at h
      have hmem : '#' ∈ ds := by
        have := List.getElem?_mem h
        exact this
      have := hdig '#' hmem
      simp [Char.isDigit] at this
    · rw [List.getElem?_append_right (Nat.le_of_not_lt hk2)] at h
      cases hv : k - markerPre.length - ds.length with
      | zero => rw [hv] at h; simp at h
      | succ m => rw [hv] at h; simp at h

/-- A marker completed only by appending `e` must be longer than `s`:
    if `s` alone has no anchored match but `s ++ e` does, then `s` is a
    proper prefix of the matched marker text. -/
theorem matchMarker_cross {s e : List Char} {i : Nat} {r : List Char}
    (hs : matchMarker s = none) (hse : matchMarker (s ++ e) = some (i, r)) :
    ∃ ds : List Char, ds ≠ [] ∧ (∀ c ∈ ds, c.isDigit) ∧
      s ++ e = (markerPre ++ (ds ++ ['\n'])) ++ r ∧
      s.length < (markerPre ++ (ds ++ ['\n'])).length := by
  obtain ⟨ds, hne, hdig, hdec, _⟩ := matchMarker_decomp hse
  have hdec' : s ++ e = (markerPre ++ (ds ++ ['\n'])) ++ r := by
    rw [hdec]; simp
  refine ⟨ds, hne, hdig, hdec', ?_⟩
  by_contra hlen
  have hlen' : (markerPre ++ (ds ++ ['\n'])).length ≤ s.length := Nat.le_of_not_lt hlen
  -- then the whole marker already sits inside `s`, so `matchMarker s` fires
  have htake : s.take (markerPre ++ (ds ++ ['\n'])).length = markerPre ++ (ds ++ ['\n']) := by
    have h1 : (s ++ e).take (markerPre ++ (ds ++ ['\n'])).length
        = markerPre ++ (ds ++ ['\n']) := by
      rw [hdec', List.take_left]
    rw [List.take_append_of_le_length hlen'] at h1
    exact h1
  have hsplit : s = markerPre ++ ds ++ '\n' :: s.drop (markerPre ++ (ds ++ ['\n'])).length := by
    conv_lhs => rw [← List.take_append_drop (markerPre ++ (ds ++ ['\n'])).length s]
    rw [htake]; simp
  have := matchMarker_of_decomp ds (s.drop (markerPre ++ (ds ++ ['\n'])).length) hne hdig
  rw [← hsplit] at this
  rw [this] at hs
  exact absurd hs (by simp)

/-- Stability of the leftmost marker under appending: once a complete marker
    is present, later-arriving text can neither move it nor create an earlier
    one (a marker cannot begin strictly inside another marker's text). -/
theorem splitFirstMarker_append {s : List Char} {p : List Char} {i : Nat}
    {r : List Char} (e : List Char) (h : splitFirstMarker s = some (p, i, r)) :
    splitFirstMarker (s ++ e) = some (p, i, r ++ e) := by
  induction s generalizing p with
  | nil => simp [splitFirstMarker] at h
  | cons c cs ih =>
    unfold splitFirstMarker at h
    cases hm : matchMarker (c :: cs) with
    | some v =>
      obtain ⟨i₀, r₀⟩ := v
      rw [hm] at h
      simp only [Option.some.injEq, Prod.mk.injEq] at h
      obtain ⟨hp, hi, hr⟩ := h
      have := matchMarker_append e hm
      unfold splitFirstMarker
      simp only [List.cons_append] at this ⊢
      rw [this, ← hp, ← hi, ← hr]
    | none =>
      rw [hm] at h
      cases hs : splitFirstMarker cs with
      | some v =>
        obtain ⟨p', i', r'⟩ := v
        rw [hs] at h
        simp only [Option.some.injEq, Prod.mk.injEq] at h
        obtain ⟨hp, hi, hr⟩ := h
        have hrec := ih (p := p') (hi ▸ hr ▸ hs)
        -- no marker can match at the head of `(c :: cs) ++ e` either
        have hnone : matchMarker ((c :: cs) ++ e) = none := by
          cases hme : matchMarker ((c :: cs) ++ e) with
          | none => rfl
          | some v₂ =>
            obtain ⟨j, rest⟩ := v₂
            obtain ⟨dsj, hnej, hdigj, hdecj, hlenj⟩ := matchMarker_cross hm hme
            -- `cs` contains a complete marker at position `p'.length`
            obtain ⟨ds', hne', hdig', hdec', _⟩ :=
              splitFirstMarker_sound (hi ▸ hr ▸ hs)
            exfalso
            -- `c :: cs` is a proper prefix of the crossing marker text
            set M := markerPre ++ (dsj ++ ['\n']) with hM
            have hpref : ∀ k, k < (c :: cs).length →
                (c :: cs)[k]? = M[k]? := by
              intro k hk
              have h1 : ((c :: cs) ++ e)[k]? = (c :: cs)[k]? :=
                List.getElem?_append_left hk
              have h2 : ((c :: cs) ++ e)[k]? = M[k]? := by
                rw [hdecj]
                exact List.getElem?_append_left (Nat.lt_trans hk hlenj)
              rw [← h1, h2]
            -- positions of the inner marker's three leading hashes
            have hcs : c :: cs = (c :: p') ++ markerPre ++ ds' ++ '\n' :: r := by
              rw [hdec']; simp
            have hlen_cs : (c :: p').length + 2 < (c :: cs).length := by
              rw [hcs]
              simp only [List.length_append, List.length_cons]
              have : 3 ≤ markerPre.length := by simp [markerPre]
              omega
            have hhash : ∀ m, m < 3 → (c :: cs)[(c :: p').length + m]? = some '#' := by
              intro m hm3
              rw [hcs]
              have harr : ((c :: p') ++ markerPre ++ ds' ++ '\n' :: r)
                  = (c :: p') ++ (markerPre ++ (ds' ++ '\n' :: r)) := by simp
              rw [harr, List.getElem?_append_right (by omega)]
              have : (c :: p').length + m - (c :: p').length = m := by omega
              rw [this]
              have hm18 : m < markerPre.length := by simp [markerPre]; omega
              rw [List.getElem?_append_left hm18]
              interval_cases m <;> simp [markerPre]
            have habs : ∀ m, m < 3 → M[(c :: p').length + m]? = some '#' := by
              intro m hm3
              rw [← hpref _ (by omega)]
              exact hhash m hm3
            have h0 := marker_hash_lt_three dsj ((c :: p').length + 0) hdigj (by rw [← hM]; exact habs 0 (by omega))
            have h2 := marker_hash_lt_three dsj ((c :: p').length + 2) hdigj (by rw [← hM]; exact habs 2 (by omega))
            simp at h0 h2
            omega
        unfold splitFirstMarker
        simp only [List.cons_append] at hnone hrec ⊢
        rw [hnone, hrec, ← hp]
      | none => rw [hs] at h; exact absurd h (by simp)

/-! ## The whitespace side condition for chunk-granularity invariance -/

/-- `true` iff the list is empty or does not begin with JS whitespace. -/
def headNotWs : List Char → Bool
  | [] => true
  | c :: _ => !(jsIsWs c)

/-- Checks that the text following every complete cell marker in `u` is
    empty or begins with a non-whitespace character.  Under this condition
    the `.trimStart()` the demultiplexer applies after consuming a marker is
    the identity, which is exactly what chunk-granularity invariance needs. -/
def noWsAfterMarkersB : List Char → Bool
  | [] => true
  | c :: cs =>
    (match matchMarker (c :: cs) with
     | some (_, rest) => headNotWs rest
     | none => true) && noWsAfterMarkersB cs

/-- Propositional form of `noWsAfterMarkersB`, quantified over all suffixes. -/
def noWsP (u : List Char) : Prop :=
  ∀ k i rest, matchMarker (u.drop k) = some (i, rest) → headNotWs rest

theorem noWsP_of_B {u : List Char} (h : noWsAfterMarkersB u = true) : noWsP u := by
  induction u with
  | nil => intro k i rest hm; simp [matchMarker, markerPre] at hm
  | cons c cs ih =>
    unfold noWsAfterMarkersB at h
    rw [Bool.and_eq_true] at h
    intro k i rest hm
    cases k with
    | zero =>
      simp only [List.drop_zero] at hm
      have := h.1
      rw [hm] at this
      exact this
    | succ k' =>
      simp only [List.drop_succ_cons] at hm
      exact ih h.2 k' i rest hm

theorem noWsP_drop {u : List Char} (h : noWsP u) (k : Nat) : noWsP (u.drop k) := by
  intro j i rest hm
  rw [List.drop_drop] at hm
  exact h (k + j) i rest hm

theorem noWsP_suffix {u v : List Char} (h : noWsP u) (hs : v.IsSuffix u) :
    noWsP v := by
  obtain ⟨t, ht⟩ := hs
  have : v = u.drop t.length := by rw [← ht, List.drop_left]
  rw [this]
  exact noWsP_drop h t.length

theorem trimStartL_of_headNotWs {l : List Char} (h : headNotWs l = true) :
    trimStartL l = l := by
  cases l with
  | nil => rfl
  | cons c tl =>
    unfold headNotWs at h
    simp only [Bool.not_eq_true'] at h
    simp [trimStartL, List.dropWhile_cons, h]

/-- If a list satisfying the condition has `r` as the text after its first
    marker, then `r` is untouched by `trimStart`. -/
theorem trimStartL_after_first_marker {x p : List Char} {i : Nat} {r : List Char}
    (hx : noWsP x) (h : splitFirstMarker x = some (p, i, r)) :
    trimStartL r = r := by
  obtain ⟨ds, hne, hdig, hdec, hval⟩ := splitFirstMarker_sound h
  apply trimStartL_of_headNotWs
  apply hx p.length i r
  have : x.drop p.length = markerPre ++ ds ++ '\n' :: r := by
    rw [hdec]
    rw [show p ++ markerPre ++ ds ++ '\n' :: r = p ++ (markerPre ++ ds ++ '\n' :: r) by simp]
    rw [List.drop_left]
  rw [this, hval]
  exact matchMarker_of_decomp ds r hne hdig

theorem splitFirstMarker_rest_lt {s p : List Char} {i : Nat} {r : List Char}
    (h : splitFirstMarker s = some (p, i, r)) : r.length < s.length := by
  obtain ⟨ds, hne, _, hdec, _⟩ := splitFirstMarker_sound h
  rw [hdec]
  simp only [List.length_append, List.length_cons]
  omega

theorem length_trimStartL_le (l : List Char) : (trimStartL l).length ≤ l.length := by
  unfold trimStartL
  induction l with
  | nil => simp
  | cons c tl ih =>
    rw [List.dropWhile_cons]
    by_cases h : jsIsWs c
    · simp only [h, if_pos]
      exact Nat.le_trans ih (by simp)
    · simp [h]

/-! ## The migration demultiplexer (`notebookMigrationStreaming`)

State of the per-chunk loop of `notebookMigrationStreaming`
(`migration.ts`): `currentCellIndex` (the `-1` sentinel becomes `none`),
`buffer`, `cellContentMap`, `hasReceivedData`.  Cell updates are collected
as an ordered list of write events `(index, content)`; each event is one
`setSource` call routed through `updateCellSafely` (second source version;
the first version inlines the identical bounds check at lines 434–445). -/

/-- `MAX_BUFFER_SIZE = 1024 * 1024` (both `api.ts` and `migration.ts`). -/
def MAX_BUFFER_SIZE : Nat := 1024 * 1024

structure DemuxCore where
  cur : Option Nat
  buffer : List Char
  map : Nat → List Char
  hasReceivedData : Bool

inductive DemuxError where
  | bufferOverflow
  | noData
deriving DecidableEq

/-- `updateCellSafely` (`migration.ts` lines 881–893): sets the cell's
    content when the index is in bounds, otherwise logs a warning and
    leaves every cell untouched (`Nat` indices make the `index >= 0` half
    of the source's check automatic; the streaming loop only ever reaches
    the check with an index parsed from `\d+`, which is non-negative). -/
def updateCellSafely (cells : List (List Char)) (i : Nat) (content : List Char) :
    List (List Char) :=
  if i < cells.length then cells.set i content else cells

/-- Replay a list of `setSource` write events over the cell contents. -/
def applyWrites (cells : List (List Char)) (ws : List (Nat × List Char)) :
    List (List Char) :=
  ws.foldl (fun cs iv => updateCellSafely cs iv.1 iv.2) cells

/-- The "save previous cell content" block at the top of the marker loop:
    append the text before the marker to `cellContentMap[currentCellIndex]`
    and push the updated content to the cell (skipped while
    `currentCellIndex` is the `-1` sentinel). -/
def commitEvents (cur : Option Nat) (map : Nat → List Char) (content : List Char) :
    (Nat → List Char) × List (Nat × List Char) :=
  match cur with
  | none => (map, [])
  | some i => (fun j => if j = i then map i ++ content else map j,
               [(i, map i ++ content)])

/-- The state entered after consuming one marker: current cell becomes `i`,
    the committed map `m` is installed, and the remaining text is
    `trimStart`-ed. -/
def afterMarkerState (core : DemuxCore) (i : Nat) (r : List Char)
    (m : Nat → List Char) : DemuxCore :=
  { cur := some i, buffer := trimStartL r, map := m,
    hasReceivedData := core.hasReceivedData }

/-- The `while (markerPos !== -1)` loop of `notebookMigrationStreaming`,
    written with explicit fuel so that it evaluates by structural recursion
    (the loop consumes at least one marker's worth of buffer per iteration,
    so `buffer.length + 1` fuel always suffices — see `markerLoopF_fuel`):
    as long as the buffer holds a complete marker, commit the text before it
    to the current cell, then consume the marker (`substring` + `replace` +
    `trimStart`) and switch `currentCellIndex` to the parsed index.
    The `parseCellIndex`-failure `break` of the source is unreachable: at a
    position found by `NB_CELL_ID_REGEX` search the anchored index parse
    always succeeds, which `splitFirstMarker` reflects. -/
def markerLoopF : Nat → DemuxCore → DemuxCore × List (Nat × List Char)
  | 0, core => (core, [])
  | fuel + 1, core =>
    match splitFirstMarker core.buffer with
    | none => (core, [])
    | some (p, i, r) =>
      let mw := commitEvents core.cur core.map p
      let res := markerLoopF fuel (afterMarkerState core i r mw.1)
      (res.1, mw.2 ++ res.2)

/-- The marker loop with its (always sufficient) default fuel. -/
def markerLoopC (core : DemuxCore) : DemuxCore × List (Nat × List Char) :=
  markerLoopF (core.buffer.length + 1) core

/-- Fuel irrelevance: any fuel exceeding the buffer length gives the same
    result, because each iteration strictly shrinks the buffer. -/
theorem markerLoopF_fuel : ∀ (f₁ f₂ : Nat) (core : DemuxCore),
    core.buffer.length < f₁ → core.buffer.length < f₂ →
    markerLoopF f₁ core = markerLoopF f₂ core := by
  intro f₁
  induction f₁ with
  | zero => intro f₂ core h1; omega
  | succ f ih =>
    intro f₂ core h1 h2
    cases f₂ with
    | zero => omega
    | succ f' =>
      cases h : splitFirstMarker core.buffer with
      | none => simp [markerLoopF, h]
      | some v =>
        obtain ⟨p, i, r⟩ := v
        have hlt : (trimStartL r).length < core.buffer.length :=
          Nat.lt_of_le_of_lt (length_trimStartL_le r) (splitFirstMarker_rest_lt h)
        simp only [markerLoopF, h]
        rw [ih f' (afterMarkerState core i r (commitEvents core.cur core.map p).1)
          (by simp [afterMarkerState]; omega) (by simp [afterMarkerState]; omega)]

/-- `hasReceivedData = true; buffer += chunk.migratedCode` — the state right
    after a chunk is appended, before the bound check. -/
def recvState (core : DemuxCore) (chunk : List Char) : DemuxCore :=
  { core with hasReceivedData := true, buffer := core.buffer ++ chunk }

/-- The real-time partial update after the marker loop: if a current cell
    exists and the leftover buffer is non-empty, push
    `cellContentMap[currentCellIndex] + buffer` to the cell (without
    committing it to the map). -/
def partialWrites (c : DemuxCore) : List (Nat × List Char) :=
  match c.cur with
  | some i => if c.buffer = [] then [] else [(i, c.map i ++ c.buffer)]
  | none => []

/-- One iteration of the `for await` chunk loop of
    `notebookMigrationStreaming`: record receipt, append the chunk to the
    buffer, enforce the 1 MiB bound (fatal), run the marker loop, and issue
    the real-time partial update of the current cell. -/
def feedChunkC (core : DemuxCore) (chunk : List Char) :
    Except DemuxError (DemuxCore × List (Nat × List Char)) :=
  if MAX_BUFFER_SIZE < (recvState core chunk).buffer.length then
    .error .bufferOverflow
  else
    let lr := markerLoopC (recvState core chunk)
    .ok (lr.1, lr.2 ++ partialWrites lr.1)

/-- The whole `for await` loop over the stream's migrated-code chunks. -/
def feedAllC (core : DemuxCore) : List (List Char) →
    Except DemuxError (DemuxCore × List (Nat × List Char))
  | [] => .ok (core, [])
  | c :: cs => do
    let r1 ← feedChunkC core c
    let r2 ← feedAllC r1.1 cs
    .ok (r2.1, r1.2 ++ r2.2)

/-- The "finalize the last cell" block after the stream ends: if a current
    cell exists and the residual buffer is not whitespace-only, commit it and
    push the final value. -/
def finalizeC (core : DemuxCore) : List (Nat × List Char) :=
  match core.cur with
  | none => []
  | some i => if trimL core.buffer = [] then [] else [(i, core.map i ++ core.buffer)]

/-- Initial demultiplexer state (`currentCellIndex = -1`, empty buffer,
    empty `cellContentMap`, `hasReceivedData = false`). -/
def initDemuxCore : DemuxCore :=
  { cur := none, buffer := [], map := fun _ => [], hasReceivedData := false }

/-- `notebookMigrationStreaming`, restricted to its cell-content effect:
    feed all migrated-code chunks, finalize, fail with `noData` when no chunk
    arrived, and return the final contents of the notebook's cells. -/
def notebookMigrationStreamingRun (cells : List (List Char))
    (chunks : List (List Char)) : Except DemuxError (List (List Char)) := do
  let r ← feedAllC initDemuxCore chunks
  if r.1.hasReceivedData then
    .ok (applyWrites cells (r.2 ++ finalizeC r.1))
  else .error .noData

theorem markerLoopC_eq_none {core : DemuxCore}
    (h : splitFirstMarker core.buffer = none) : markerLoopC core = (core, []) := by
  unfold markerLoopC
  simp [markerLoopF, h]

theorem markerLoopC_eq_some {core : DemuxCore} {p : List Char} {i : Nat}
    {r : List Char} (h : splitFirstMarker core.buffer = some (p, i, r)) :
    markerLoopC core =
      ((markerLoopC (afterMarkerState core i r (commitEvents core.cur core.map p).1)).1,
       (commitEvents core.cur core.map p).2 ++
         (markerLoopC (afterMarkerState core i r (commitEvents core.cur core.map p).1)).2) := by
  unfold markerLoopC
  conv_lhs => rw [markerLoopF, h]
  dsimp only
  have hlt : (trimStartL r).length < core.buffer.length :=
    Nat.lt_of_le_of_lt (length_trimStartL_le r) (splitFirstMarker_rest_lt h)
  rw [markerLoopF_fuel core.buffer.length
    ((afterMarkerState core i r (commitEvents core.cur core.map p).1).buffer.length + 1)
    (afterMarkerState core i r (commitEvents core.cur core.map p).1)
    (by simp [afterMarkerState]; omega) (by simp [afterMarkerState])]

theorem headNotWs_after_first_marker {x p : List Char} {i : Nat} {r : List Char}
    (hx : noWsP x) (h : splitFirstMarker x = some (p, i, r)) :
    headNotWs r = true := by
  obtain ⟨ds, hne, hdig, hdec, hval⟩ := splitFirstMarker_sound h
  apply hx p.length i r
  have : x.drop p.length = markerPre ++ ds ++ '\n' :: r := by
    rw [hdec]
    rw [show p ++ markerPre ++ ds ++ '\n' :: r = p ++ (markerPre ++ ds ++ '\n' :: r) by simp]
    rw [List.drop_left]
  rw [this, hval]
  exact matchMarker_of_decomp ds r hne hdig

theorem headNotWs_append_left {r e : List Char} (h : headNotWs (r ++ e) = true) :
    headNotWs r = true := by
  cases r with
  | nil => rfl
  | cons c tl => simpa [headNotWs] using h

theorem markerLoopC_hasRD (core : DemuxCore) :
    (markerLoopC core).1.hasReceivedData = core.hasReceivedData := by
  generalize hn : core.buffer.length = n
  induction n using Nat.strong_induction_on generalizing core with
  | _ n ih =>
    cases h : splitFirstMarker core.buffer with
    | none => rw [markerLoopC_eq_none h]
    | some v =>
      obtain ⟨p, i, r⟩ := v
      rw [markerLoopC_eq_some h]
      have hlt : (trimStartL r).length < n :=
        hn ▸ Nat.lt_of_le_of_lt (length_trimStartL_le r) (splitFirstMarker_rest_lt h)
      exact ih _ hlt _ rfl

theorem markerLoopC_buffer_suffix (core : DemuxCore) :
    (markerLoopC core).1.buffer.IsSuffix core.buffer := by
  generalize hn : core.buffer.length = n
  induction n using Nat.strong_induction_on generalizing core with
  | _ n ih =>
    cases h : splitFirstMarker core.buffer with
    | none => rw [markerLoopC_eq_none h]
    | some v =>
      obtain ⟨p, i, r⟩ := v
      rw [markerLoopC_eq_some h]
      have hlt : (trimStartL r).length < n :=
        hn ▸ Nat.lt_of_le_of_lt (length_trimStartL_le r) (splitFirstMarker_rest_lt h)
      have h1 := ih _ hlt (afterMarkerState core i r (commitEvents core.cur core.map p).1) rfl
      have h2 : (trimStartL r).IsSuffix core.buffer := by
        obtain ⟨ds, _, _, hdec, _⟩ := splitFirstMarker_sound h
        have hr : r.IsSuffix core.buffer := by
          refine ⟨p ++ markerPre ++ ds ++ ['\n'], ?_⟩
          rw [hdec]; simp
        exact (List.dropWhile_suffix jsIsWs).trans hr
      exact h1.trans h2

theorem markerLoopC_no_marker (core : DemuxCore) :
    splitFirstMarker (markerLoopC core).1.buffer = none := by
  generalize hn : core.buffer.length = n
  induction n using Nat.strong_induction_on generalizing core with
  | _ n ih =>
    cases h : splitFirstMarker core.buffer with
    | none => rw [markerLoopC_eq_none h]; exact h
    | some v =>
      obtain ⟨p, i, r⟩ := v
      rw [markerLoopC_eq_some h]
      have hlt : (trimStartL r).length < n :=
        hn ▸ Nat.lt_of_le_of_lt (length_trimStartL_le r) (splitFirstMarker_rest_lt h)
      exact ih _ hlt _ rfl

/-- Replace only the buffer of a demultiplexer state. -/
def withBuf (c : DemuxCore) (b : List Char) : DemuxCore :=
  { c with buffer := b }

/-- Composing the marker loop with later-arriving text: under the whitespace
    side condition, running the loop on `buffer ++ e` consumes the same
    markers (emitting the same committed writes) as running it on `buffer`
    first and then continuing with `e` appended to the leftover buffer. -/
theorem markerLoopC_append (core : DemuxCore) (e : List Char)
    (hws : noWsP (core.buffer ++ e)) :
    markerLoopC (withBuf core (core.buffer ++ e)) =
      ((markerLoopC (withBuf (markerLoopC core).1
          ((markerLoopC core).1.buffer ++ e))).1,
       (markerLoopC core).2 ++
         (markerLoopC (withBuf (markerLoopC core).1
            ((markerLoopC core).1.buffer ++ e))).2) := by
  generalize hn : core.buffer.length = n
  induction n using Nat.strong_induction_on generalizing core with
  | _ n ih =>
    cases h : splitFirstMarker core.buffer with
    | none =>
      rw [markerLoopC_eq_none h]
      simp
    | some v =>
      obtain ⟨p, i, r⟩ := v
      have h1 : splitFirstMarker (core.buffer ++ e) = some (p, i, r ++ e) :=
        splitFirstMarker_append e h
      have h1' : splitFirstMarker (withBuf core (core.buffer ++ e)).buffer
          = some (p, i, r ++ e) := by simpa [withBuf] using h1
      -- the trimStart calls are identities under the side condition
      have hhead : headNotWs (r ++ e) = true :=
        headNotWs_after_first_marker (x := core.buffer ++ e) hws h1
      have htrim1 : trimStartL (r ++ e) = r ++ e := trimStartL_of_headNotWs hhead
      have htrim2 : trimStartL r = r :=
        trimStartL_of_headNotWs (headNotWs_append_left hhead)
      set mw := commitEvents core.cur core.map p with hmw
      have hcommit : commitEvents (withBuf core (core.buffer ++ e)).cur
          (withBuf core (core.buffer ++ e)).map p = mw := by
        simp [withBuf, hmw]
      set A0 : DemuxCore := afterMarkerState core i r mw.1 with hA0
      have hsame : afterMarkerState (withBuf core (core.buffer ++ e)) i (r ++ e) mw.1
          = withBuf A0 (A0.buffer ++ e) := by
        simp only [afterMarkerState, withBuf, hA0, htrim1, htrim2]
      rw [markerLoopC_eq_some h1', markerLoopC_eq_some h, hcommit, hsame]
      have hA0buf : A0.buffer = r := by simp [hA0, afterMarkerState, htrim2]
      have hsuffix : (A0.buffer ++ e).IsSuffix (core.buffer ++ e) := by
        rw [hA0buf]
        obtain ⟨ds, _, _, hdec, _⟩ := splitFirstMarker_sound h
        refine ⟨p ++ markerPre ++ ds ++ ['\n'], ?_⟩
        rw [hdec]; simp
      have hws0 : noWsP (A0.buffer ++ e) := noWsP_suffix hws hsuffix
      have hlt : A0.buffer.length < n := by
        rw [hA0buf]
        exact hn ▸ splitFirstMarker_rest_lt h
      have hrec := ih _ hlt A0 hws0 rfl
      rw [hrec]
      simp [List.append_assoc]

/-! ## Write-event algebra: an overwritten write is irrelevant -/

theorem updateCellSafely_length (cells : List (List Char)) (i : Nat)
    (v : List Char) : (updateCellSafely cells i v).length = cells.length := by
  unfold updateCellSafely
  by_cases h : i < cells.length <;> simp [h]

theorem updateCellSafely_same (cells : List (List Char)) (i : Nat)
    (v v' : List Char) :
    updateCellSafely (updateCellSafely cells i v) i v' =
      updateCellSafely cells i v' := by
  unfold updateCellSafely
  by_cases h : i < cells.length
  · simp [h, List.set_set]
  · simp [h]

theorem updateCellSafely_comm (cells : List (List Char)) {i j : Nat}
    (hij : i ≠ j) (v w : List Char) :
    updateCellSafely (updateCellSafely cells i v) j w =
      updateCellSafely (updateCellSafely cells j w) i v := by
  unfold updateCellSafely
  by_cases hi : i < cells.length <;> by_cases hj : j < cells.length <;>
    simp [hi, hj, List.length_set]
  exact List.set_comm _ _ _ hij

theorem applyWrites_append (cells : List (List Char))
    (xs ys : List (Nat × List Char)) :
    applyWrites cells (xs ++ ys) = applyWrites (applyWrites cells xs) ys := by
  unfold applyWrites
  exact List.foldl_append _ _ _ _

/-- A write that is later overwritten (some later event targets the same
    index) can be dropped without changing the final cell contents. -/
theorem applyWrites_absorb (i : Nat) (v : List Char)
    (ws : List (Nat × List Char)) (hw : ∃ e ∈ ws, e.1 = i) :
    ∀ cells, applyWrites cells ((i, v) :: ws) = applyWrites cells ws := by
  induction ws with
  | nil => simp at hw
  | cons e tl ih =>
    intro cells
    by_cases hei : e.1 = i
    · show applyWrites (updateCellSafely (updateCellSafely cells i v) e.1 e.2) tl
        = applyWrites (updateCellSafely cells e.1 e.2) tl
      rw [hei, updateCellSafely_same]
    · have hw' : ∃ x ∈ tl, x.1 = i := by
        obtain ⟨x, hx, hxi⟩ := hw
        rcases List.mem_cons.mp hx with h | h
        · exact absurd (h ▸ hxi) hei
        · exact ⟨x, h, hxi⟩
      show applyWrites (updateCellSafely (updateCellSafely cells i v) e.1 e.2) tl
        = applyWrites (updateCellSafely cells e.1 e.2) tl
      rw [updateCellSafely_comm cells (Ne.symm hei) v e.2]
      exact ih hw' (updateCellSafely cells e.1 e.2)

theorem markerLoopC_first_commit {core : DemuxCore} {p : List Char} {i i₁ : Nat}
    {r : List Char} (h : splitFirstMarker core.buffer = some (p, i, r))
    (hcur : core.cur = some i₁) :
    ∃ tl, (markerLoopC core).2 = (i₁, core.map i₁ ++ p) :: tl := by
  rw [markerLoopC_eq_some h, hcur]
  exact ⟨_, rfl⟩

theorem recvState_eq_withBuf {c : DemuxCore} (h : c.hasReceivedData = true)
    (b : List Char) : recvState c b = withBuf c (c.buffer ++ b) := by
  cases c
  simp_all [recvState, withBuf]

theorem recvState_append (core : DemuxCore) (a b : List Char) :
    recvState core (a ++ b) =
      withBuf (recvState core a) ((recvState core a).buffer ++ b) := by
  cases core
  simp [recvState, withBuf]

/-- Feeding `a ++ b` as one chunk produces the same final demultiplexer state
    as feeding `a` then `b`, and a write-event list with the same effect on
    any cell collection: the only difference is the real-time partial update
    after `a`, which a later write to the same (still current) cell always
    overwrites. -/
theorem feedChunkC_comp (core : DemuxCore) (a b : List Char)
    (hws : noWsP (core.buffer ++ (a ++ b)))
    (hlen : (core.buffer ++ (a ++ b)).length ≤ MAX_BUFFER_SIZE) :
    ∃ c₁ w₁ c₂ w₂ w,
      feedChunkC core a = .ok (c₁, w₁) ∧
      feedChunkC c₁ b = .ok (c₂, w₂) ∧
      feedChunkC core (a ++ b) = .ok (c₂, w) ∧
      ∀ cells, applyWrites cells (w₁ ++ w₂) = applyWrites cells w := by
  have hlenflat : core.buffer.length + a.length + b.length ≤ MAX_BUFFER_SIZE := by
    simpa [Nat.add_assoc] using hlen
  set D := recvState core a with hD
  have hDbuf : D.buffer = core.buffer ++ a := rfl
  set M1 := (markerLoopC D).1 with hM1
  have hM1buf : M1.buffer.length ≤ D.buffer.length :=
    (markerLoopC_buffer_suffix D).length_le
  have hDlen : D.buffer.length = core.buffer.length + a.length := by
    rw [hDbuf]; simp
  have hM1rd : M1.hasReceivedData = true := by
    rw [hM1, markerLoopC_hasRD]
    rfl
  -- side 1: feed `a`
  have hfa : feedChunkC core a =
      .ok (M1, (markerLoopC D).2 ++ partialWrites M1) := by
    unfold feedChunkC
    rw [if_neg (by rw [← hD, hDbuf]; simp; omega)]
  -- the appended-text run of the marker loop
  have hws' : noWsP (D.buffer ++ b) := by
    rw [hDbuf, List.append_assoc]
    exact hws
  have hml := markerLoopC_append D b hws'
  set W := markerLoopC (withBuf M1 (M1.buffer ++ b)) with hW
  -- side 2: feed `b` from `M1`
  have hfb : feedChunkC M1 b = .ok (W.1, W.2 ++ partialWrites W.1) := by
    unfold feedChunkC
    rw [recvState_eq_withBuf hM1rd b]
    rw [if_neg (by simp [withBuf]; omega)]
  -- single chunk: feed `a ++ b`
  have hrecv : recvState core (a ++ b) = withBuf D (D.buffer ++ b) := by
    rw [hD]
    exact recvState_append core a b
  have hfab : feedChunkC core (a ++ b) =
      .ok (W.1, ((markerLoopC D).2 ++ W.2) ++ partialWrites W.1) := by
    unfold feedChunkC
    rw [if_neg (by simp [recvState]; omega)]
    rw [hrecv, hml]
  refine ⟨M1, (markerLoopC D).2 ++ partialWrites M1, W.1, W.2 ++ partialWrites W.1,
    ((markerLoopC D).2 ++ W.2) ++ partialWrites W.1, hfa, hfb, hfab, ?_⟩
  intro cells
  -- compare the two write lists
  cases hpw : partialWrites M1 with
  | nil =>
    simp [hpw, List.append_assoc]
  | cons x xs =>
    -- the partial update exists: current cell `i₁`, non-empty leftover buffer
    have hx : ∃ i₁, M1.cur = some i₁ ∧ M1.buffer ≠ [] ∧
        x = (i₁, M1.map i₁ ++ M1.buffer) ∧ xs = [] := by
      unfold partialWrites at hpw
      cases hcur : M1.cur with
      | none => simp only [hcur] at hpw; exact absurd hpw (by simp)
      | some i₁ =>
        simp only [hcur] at hpw
        by_cases hb : M1.buffer = []
        · rw [if_pos hb] at hpw; exact absurd hpw (by simp)
        · rw [if_neg hb] at hpw
          simp only [List.cons.injEq] at hpw
          exact ⟨i₁, rfl, hb, hpw.1.symm, hpw.2.symm⟩
    obtain ⟨i₁, hcur, hbne, hxval, hxs⟩ := hx
    subst hxs
    -- a later write to `i₁` exists in `W.2 ++ partialWrites W.1`
    have habsorb : ∃ e ∈ W.2 ++ partialWrites W.1, e.1 = i₁ := by
      cases hsp : splitFirstMarker (withBuf M1 (M1.buffer ++ b)).buffer with
      | some v =>
        obtain ⟨p', i', r'⟩ := v
        obtain ⟨tl', hfirst⟩ :=
          markerLoopC_first_commit hsp
            (show (withBuf M1 (M1.buffer ++ b)).cur = some i₁ from hcur)
        rw [← hW] at hfirst
        exact ⟨(i₁, (withBuf M1 (M1.buffer ++ b)).map i₁ ++ p'),
          by rw [hfirst]; simp, rfl⟩
      | none =>
        have hWeq : W = (withBuf M1 (M1.buffer ++ b), []) := by
          rw [hW, markerLoopC_eq_none hsp]
        have hpw2 : partialWrites W.1 = [(i₁, M1.map i₁ ++ (M1.buffer ++ b))] := by
          rw [hWeq]
          unfold partialWrites
          simp only [withBuf]
          simp only [hcur]
          rw [if_neg (by simp [hbne])]
        rw [hWeq] at hpw2 ⊢
        refine ⟨(i₁, M1.map i₁ ++ (M1.buffer ++ b)), ?_, rfl⟩
        rw [hpw2]
        simp
    -- drop the absorbed write
    rw [hxval]
    have h1 : ((markerLoopC D).2 ++ [(i₁, M1.map i₁ ++ M1.buffer)]) ++
        (W.2 ++ partialWrites W.1) =
        (markerLoopC D).2 ++ ((i₁, M1.map i₁ ++ M1.buffer) ::
          (W.2 ++ partialWrites W.1)) := by
      simp
    rw [h1, applyWrites_append]
    rw [applyWrites_absorb i₁ (M1.map i₁ ++ M1.buffer) _ habsorb]
    simp [applyWrites_append]

/-- Concatenation of a chunk sequence (the combined migrated-code string). -/
def joinChunks : List (List Char) → List Char
  | [] => []
  | c :: cs => c ++ joinChunks cs

theorem feedChunkC_ok_inv {core : DemuxCore} {chunk : List Char}
    {c' : DemuxCore} {w : List (Nat × List Char)}
    (h : feedChunkC core chunk = .ok (c', w)) :
    c'.buffer.IsSuffix (core.buffer ++ chunk) ∧ c'.hasReceivedData = true := by
  unfold feedChunkC at h
  by_cases hc : MAX_BUFFER_SIZE < (recvState core chunk).buffer.length
  · rw [if_pos hc] at h
    exact absurd h (by simp)
  · rw [if_neg hc] at h
    simp only [Except.ok.injEq, Prod.mk.injEq] at h
    constructor
    · rw [← h.1]
      exact markerLoopC_buffer_suffix (recvState core chunk)
    · rw [← h.1, markerLoopC_hasRD]
      rfl

/-- Feeding any chunk sequence equals feeding its concatenation as one chunk:
    same final state, and write events with the same effect on any cell
    collection.  Requires the whitespace side condition and that the whole
    combined text fits in the buffer bound. -/
theorem feedAllC_comp (cs : List (List Char)) (core : DemuxCore)
    (hne : cs ≠ [])
    (hws : noWsP (core.buffer ++ joinChunks cs))
    (hlen : (core.buffer ++ joinChunks cs).length ≤ MAX_BUFFER_SIZE) :
    ∃ C w w',
      feedAllC core cs = .ok (C, w) ∧
      feedChunkC core (joinChunks cs) = .ok (C, w') ∧
      ∀ cells, applyWrites cells w = applyWrites cells w' := by
  induction cs generalizing core with
  | nil => exact absurd rfl hne
  | cons c cs' ih =>
    by_cases hcs : cs' = []
    · subst hcs
      have hj : joinChunks [c] = c := by simp [joinChunks]
      rw [hj] at hws hlen
      have hok : feedChunkC core c =
          .ok ((markerLoopC (recvState core c)).1,
               (markerLoopC (recvState core c)).2 ++
                 partialWrites (markerLoopC (recvState core c)).1) := by
        unfold feedChunkC
        rw [if_neg (by simp [recvState]; simp at hlen; omega)]
      refine ⟨(markerLoopC (recvState core c)).1,
        ((markerLoopC (recvState core c)).2 ++
          partialWrites (markerLoopC (recvState core c)).1) ++ [],
        (markerLoopC (recvState core c)).2 ++
          partialWrites (markerLoopC (recvState core c)).1,
        ?_, by rw [hj]; exact hok, by intro cells; simp⟩
      show feedAllC core [c] = _
      unfold feedAllC
      rw [hok]
      rfl
    · have hjoin : joinChunks (c :: cs') = c ++ joinChunks cs' := rfl
      rw [hjoin] at hws hlen
      obtain ⟨c₁, w₁, c₂, w₂, w, hfa, hfb, hfab, heff⟩ :=
        feedChunkC_comp core c (joinChunks cs') hws hlen
      obtain ⟨hsuf, hrd⟩ := feedChunkC_ok_inv hfa
      have hsuf' : (c₁.buffer ++ joinChunks cs').IsSuffix
          (core.buffer ++ (c ++ joinChunks cs')) := by
        obtain ⟨t, ht⟩ := hsuf
        refine ⟨t, ?_⟩
        rw [← List.append_assoc, ht, List.append_assoc]
      have hws1 : noWsP (c₁.buffer ++ joinChunks cs') := noWsP_suffix hws hsuf'
      have hlen1 : (c₁.buffer ++ joinChunks cs').length ≤ MAX_BUFFER_SIZE := by
        have := hsuf'.length_le
        omega
      obtain ⟨C, wA, wB, hall, hone, heff'⟩ := ih c₁ hcs hws1 hlen1
      -- `feedChunkC c₁ (joinChunks cs')` appears in both: identify results
      rw [hfb] at hone
      simp only [Except.ok.injEq, Prod.mk.injEq] at hone
      obtain ⟨hC, hwB⟩ := hone
      refine ⟨C, w₁ ++ wA, w, ?_, ?_, ?_⟩
      · show feedAllC core (c :: cs') = _
        unfold feedAllC
        rw [hfa]
        show Bind.bind (feedAllC c₁ cs') _ = _
        rw [hall]
        rfl
      · rw [hjoin, hfab, hC]
      · intro cells
        rw [applyWrites_append, heff' (applyWrites cells w₁), ← hwB,
          ← applyWrites_append]
        exact heff cells

deriving instance DecidableEq for Except

theorem run_eq_of_feedAll {cells chunks : List (List Char)}
    {C : DemuxCore} {w : List (Nat × List Char)}
    (h : feedAllC initDemuxCore chunks = .ok (C, w)) :
    notebookMigrationStreamingRun cells chunks =
      if C.hasReceivedData then .ok (applyWrites cells (w ++ finalizeC C))
      else .error .noData := by
  unfold notebookMigrationStreamingRun
  rw [h]
  rfl

/-- C1, as stated, is false: `.trimStart()` is applied to whatever part of a
    cell's text is in the buffer when its marker is consumed, so leading
    whitespace that arrives in a later chunk survives while the same
    whitespace arriving in the marker's chunk is trimmed.  Feeding
    `"### Notebook_Cell_0\n foo"` whole yields cell content `"foo"`; feeding
    it split right after the marker's newline yields `" foo"`. -/
theorem c1_counterexample :
    notebookMigrationStreamingRun [['x']] ["### Notebook_Cell_0\n foo".data] ≠
      notebookMigrationStreamingRun [['x']]
        ["### Notebook_Cell_0\n".data, " foo".data] := by decide

/-- C1 (amended): for every combined migrated-code string in which the text
    following each complete cell marker is empty or starts with a
    non-whitespace character, and which fits in the 1 MiB buffer bound,
    splitting the string into any non-empty sequence of sub-chunks and
    feeding them through the streaming migration demultiplexer produces the
    same final per-cell content as feeding the whole string as one chunk. -/
theorem c1_amended (cells chunks : List (List Char)) (s : List Char)
    (hne : chunks ≠ []) (hj : joinChunks chunks = s)
    (hws : noWsAfterMarkersB s = true) (hlen : s.length ≤ MAX_BUFFER_SIZE) :
    notebookMigrationStreamingRun cells chunks =
      notebookMigrationStreamingRun cells [s] := by
  subst hj
  have hwsP : noWsP (initDemuxCore.buffer ++ joinChunks chunks) := by
    have := noWsP_of_B hws
    simpa [initDemuxCore] using this
  have hlen' : (initDemuxCore.buffer ++ joinChunks chunks).length
      ≤ MAX_BUFFER_SIZE := by
    simpa [initDemuxCore] using hlen
  obtain ⟨C, w, w', h1, h2, heff⟩ := feedAllC_comp chunks initDemuxCore hne hwsP hlen'
  have h3 : feedAllC initDemuxCore [joinChunks chunks] = .ok (C, w' ++ []) := by
    unfold feedAllC
    rw [h2]
    rfl
  rw [run_eq_of_feedAll h1, run_eq_of_feedAll h3]
  by_cases hrd : C.hasReceivedData
  · simp only [hrd, if_pos, List.append_nil, applyWrites_append, heff cells]
  · simp [hrd]

/-- Concrete instance of the amended C1 at the specification's own example
    (split `["### Not", "ebook_Cell_0\nfoo\n### Notebook_Cell_1\n", "bar"]`). -/
theorem c1_amended_witness :
    notebookMigrationStreamingRun [[], []]
        ["### Not".data, "ebook_Cell_0\nfoo\n### Notebook_Cell_1\n".data,
          "bar".data] =
      notebookMigrationStreamingRun [[], []]
        ["### Notebook_Cell_0\nfoo\n### Notebook_Cell_1\nbar".data] :=
  c1_amended [[], []]
    ["### Not".data, "ebook_Cell_0\nfoo\n### Notebook_Cell_1\n".data, "bar".data]
    ("### Notebook_Cell_0\nfoo\n### Notebook_Cell_1\nbar".data)
    (by decide) (by decide) (by decide) (by decide)

/-! ## Non-streaming migration (`cellMigration`, `notebookMigration`) -/

/-- `parseCellIndex` (`migration.ts` lines 865–872, and the inline
    `match`/`parseInt` of the first source version at lines 309–311):
    `NB_CELL_INDEX_REGEX = /^### Notebook_Cell_(\d+)/` anchored at the start
    of the segment — no trailing newline required — then `parseInt` of the
    captured digits (never `NaN` for a non-empty digit capture). -/
def parseCellIndex (g : List Char) : Option Nat :=
  if markerPre.isPrefixOf g then
    let ds := (g.drop markerPre.length).takeWhile (fun c => c.isDigit)
    if ds = [] then none else some (digitsToNat ds)
  else none

/-- `segment.replace(NB_CELL_ID_REGEX, '')`: remove the first complete
    marker occurrence (prefix, digits and newline), if any. -/
def removeFirstIdMarker (g : List Char) : List Char :=
  match splitFirstMarker g with
  | some (p, _, r) => p ++ r
  | none => g

/-- `migratedCode.split(NB_CELL_MARKER_REGEX)`: JS `split` on the zero-width
    lookahead `(?=### Notebook_Cell_\d+\n)` cuts before every complete
    marker occurrence, except that a zero-width match at position 0 does not
    produce a leading empty segment. -/
def splitBeforeMarkersGo (acc : List Char) : List Char → List (List Char)
  | [] => [acc.reverse]
  | c :: cs =>
    if acc ≠ [] ∧ (matchMarker (c :: cs)).isSome then
      acc.reverse :: splitBeforeMarkersGo [c] cs
    else splitBeforeMarkersGo (c :: acc) cs

def splitBeforeMarkers (s : List Char) : List (List Char) :=
  splitBeforeMarkersGo [] s

/-- The per-segment loop of `notebookMigration`: parse the segment's leading
    cell index; on success strip the marker and update that cell through
    `updateCellSafely`; segments with no parsable index are skipped. -/
def applySegments (cells : List (List Char)) (segs : List (List Char)) :
    List (List Char) :=
  segs.foldl
    (fun cs g =>
      match parseCellIndex g with
      | some i => updateCellSafely cs i (removeFirstIdMarker g)
      | none => cs)
    cells

inductive NbOutcome where
  | noCells
  | invalidResponse
  | nothingToMigrate
  | applied
deriving DecidableEq

/-- `notebookMigration` (non-streaming), restricted to its cell-content
    effect: validate the inputs and the response, perform the trimmed
    equality check, and otherwise split the combined migrated code on marker
    boundaries and replace each referenced cell.  The thrown errors of the
    source become outcome tags with the cells unchanged. -/
def notebookMigrationRun (cells codeCellsText : List (List Char))
    (migrated : List Char) : NbOutcome × List (List Char) :=
  if codeCellsText = [] then (.noCells, cells)
  else
    let combinedCode := List.intercalate ('\n' :: '\n' :: []) codeCellsText
    if migrated = [] then (.invalidResponse, cells)
    else if trimL migrated = trimL combinedCode then (.nothingToMigrate, cells)
    else (.applied, applySegments cells (splitBeforeMarkers migrated))

inductive CellOutcome where
  | noCode
  | invalidResponse
  | nothingToMigrate
  | applied
deriving DecidableEq

/-- `cellMigration` (non-streaming), restricted to its cell-content effect:
    validate the cell's code and the response, compare trimmed migrated text
    with the trimmed original, and either warn ("no code was found that
    needed to be migrated", cell untouched) or `setSource` the migrated
    code. -/
def cellMigrationRun (cellContent migrated : List Char) :
    CellOutcome × List Char :=
  if trimL cellContent = [] then (.noCode, cellContent)
  else if migrated = [] then (.invalidResponse, cellContent)
  else if trimL migrated = trimL cellContent then (.nothingToMigrate, cellContent)
  else (.applied, migrated)

inductive CellStreamOutcome where
  | noCode
  | noMigratedCode
  | success
deriving DecidableEq

/-- The chunk loop of `cellMigrationStreaming`: the first non-empty chunk
    clears the cell, subsequent chunks append; empty chunks are skipped. -/
def cellStreamFold (content : List Char) (cleared hasContent : Bool) :
    List (List Char) → List Char × Bool × Bool
  | [] => (content, cleared, hasContent)
  | m :: ms =>
    if m = [] then cellStreamFold content cleared hasContent ms
    else cellStreamFold ((if cleared then content else []) ++ m) true true ms

/-- `cellMigrationStreaming`, restricted to its cell-content effect: no
    trimmed-equality check exists on this path — every received chunk is
    written into the cell, and a non-empty stream always ends in the
    "successfully migrated" outcome. -/
def cellMigrationStreamingRun (cellContent : List Char)
    (chunks : List (List Char)) : CellStreamOutcome × List Char :=
  if trimL cellContent = [] then (.noCode, cellContent)
  else
    let f := cellStreamFold cellContent false false chunks
    if f.2.2 = false then (.noMigratedCode, f.1)
    else (.success, f.1)

/-- C2, as stated, is false: the trimmed-equality ("nothing to migrate")
    check exists only on the non-streaming paths.  `cellMigrationStreaming`
    writes every chunk into the cell and reports success even when the
    streamed text trim-equals the original: migrating `"print('hi')"` while
    the service streams `"print('hi')\n"` (trim-identical) rewrites the cell
    to `"print('hi')\n"` and reports success, not "nothing to migrate". -/
theorem c2_counterexample :
    trimL ("print('hi')\n".data) = trimL ("print('hi')".data) ∧
    cellMigrationStreamingRun ("print('hi')".data) [("print('hi')\n".data)] =
      (CellStreamOutcome.success, "print('hi')\n".data) ∧
    "print('hi')\n".data ≠ "print('hi')".data := by decide

/-- C2 (amended): the equivalence check holds on the NON-streaming paths:
    whenever the returned migrated text trim-equals the (combined) original,
    `cellMigration` and `notebookMigration` surface the "nothing to migrate"
    warning and leave every cell unchanged; the streaming paths perform no
    such check. -/
theorem c2_amended :
    (∀ code m : List Char, trimL code ≠ [] → trimL m = trimL code →
      cellMigrationRun code m = (CellOutcome.nothingToMigrate, code)) ∧
    (∀ (cells texts : List (List Char)) (m : List Char), texts ≠ [] → m ≠ [] →
      trimL m = trimL (List.intercalate ('\n' :: '\n' :: []) texts) →
      notebookMigrationRun cells texts m = (NbOutcome.nothingToMigrate, cells)) := by
  constructor
  · intro code m hcode heq
    have hm : m ≠ [] := by
      intro hm0
      rw [hm0] at heq
      have : trimL ([] : List Char) = [] := rfl
      rw [this] at heq
      exact hcode heq.symm
    unfold cellMigrationRun
    rw [if_neg hcode, if_neg hm, if_pos heq]
  · intro cells texts m htexts hm heq
    unfold notebookMigrationRun
    rw [if_neg htexts]
    simp only [if_neg hm, if_pos heq]

/-- The specification's single-cell scenario, non-streaming: the service
    returns text trim-identical to `"print('hi')"`, the engine warns and the
    cell keeps its exact original content. -/
theorem c2_witness :
    cellMigrationRun ("print('hi')".data) ("print('hi')\n".data) =
      (CellOutcome.nothingToMigrate, "print('hi')".data) :=
  c2_amended.1 ("print('hi')".data) ("print('hi')\n".data) (by decide) (by decide)

/-! ## C5: out-of-range cell markers -/

theorem updateCellSafely_out_of_range (cells : List (List Char)) {i : Nat}
    (content : List Char) (h : cells.length ≤ i) :
    updateCellSafely cells i content = cells := by
  unfold updateCellSafely
  rw [if_neg (by omega)]

theorem applyWrites_out_of_range (cells : List (List Char)) {i : Nat}
    (v : List Char) (ws : List (Nat × List Char)) (h : cells.length ≤ i) :
    applyWrites cells ((i, v) :: ws) = applyWrites cells ws := by
  show applyWrites (updateCellSafely cells i v) ws = applyWrites cells ws
  rw [updateCellSafely_out_of_range cells v h]

theorem applySegments_out_of_range (cells : List (List Char)) {g : List Char}
    {i : Nat} (segs : List (List Char)) (hp : parseCellIndex g = some i)
    (h : cells.length ≤ i) :
    applySegments cells (g :: segs) = applySegments cells segs := by
  have hstep : (match parseCellIndex g with
      | some i => updateCellSafely cells i (removeFirstIdMarker g)
      | none => cells) = cells := by
    rw [hp]
    exact updateCellSafely_out_of_range cells _ h
  show applySegments (match parseCellIndex g with
    | some i => updateCellSafely cells i (removeFirstIdMarker g)
    | none => cells) segs = applySegments cells segs
  rw [hstep]

/-- The streaming demultiplexer never fails on marker indices: its only
    error sources are the buffer bound and an empty stream. -/
theorem feedAllC_ok (cs : List (List Char)) (core : DemuxCore)
    (hlen : core.buffer.length + (cs.map List.length).sum ≤ MAX_BUFFER_SIZE) :
    ∃ C w, feedAllC core cs = .ok (C, w) ∧
      C.buffer.length ≤ core.buffer.length + (cs.map List.length).sum := by
  induction cs generalizing core with
  | nil => exact ⟨core, [], rfl, by simp⟩
  | cons c cs' ih =>
    have hsum : ((c :: cs').map List.length).sum
        = c.length + (cs'.map List.length).sum := by simp
    have hok : feedChunkC core c =
        .ok ((markerLoopC (recvState core c)).1,
             (markerLoopC (recvState core c)).2 ++
               partialWrites (markerLoopC (recvState core c)).1) := by
      unfold feedChunkC
      rw [if_neg (by simp [recvState]; rw [hsum] at hlen; omega)]
    have hbuf : (markerLoopC (recvState core c)).1.buffer.length
        ≤ core.buffer.length + c.length := by
      have := (markerLoopC_buffer_suffix (recvState core c)).length_le
      simpa [recvState] using this
    obtain ⟨C, w, hall, hCb⟩ := ih (markerLoopC (recvState core c)).1
      (by rw [hsum] at hlen; omega)
    refine ⟨C, ((markerLoopC (recvState core c)).2 ++
        partialWrites (markerLoopC (recvState core c)).1) ++ w,
      ?_, by rw [hsum]; omega⟩
    unfold feedAllC
    rw [hok]
    show Bind.bind (feedAllC (markerLoopC (recvState core c)).1 cs') _ = _
    rw [hall]
    rfl

/-- A non-empty successfully consumed stream always flips
    `hasReceivedData`. -/
theorem feedAllC_rd : ∀ (cs : List (List Char)) (core C : DemuxCore)
    (w : List (Nat × List Char)), cs ≠ [] →
    feedAllC core cs = .ok (C, w) → C.hasReceivedData = true := by
  intro cs
  induction cs with
  | nil => intro _ _ _ hne; exact absurd rfl hne
  | cons c cs' ih =>
    intro core C w _ h
    unfold feedAllC at h
    cases hfc : feedChunkC core c with
    | error e =>
      rw [hfc] at h
      exact Except.noConfusion h
    | ok r1 =>
      obtain ⟨c₁, w₁⟩ := r1
      rw [hfc] at h
      change Bind.bind (feedAllC c₁ cs')
        (fun r2 => Except.ok (r2.1, w₁ ++ r2.2)) = Except.ok (C, w) at h
      by_cases hcs : cs' = []
      · subst hcs
        change Except.ok (c₁, w₁ ++ []) = Except.ok (C, w) at h
        simp only [Except.ok.injEq, Prod.mk.injEq] at h
        rw [← h.1]
        exact (feedChunkC_ok_inv hfc).2
      · cases hall : feedAllC c₁ cs' with
        | error e =>
          rw [hall] at h
          exact Except.noConfusion h
        | ok r2 =>
          rw [hall] at h
          change Except.ok (r2.1, w₁ ++ r2.2) = Except.ok (C, w) at h
          simp only [Except.ok.injEq, Prod.mk.injEq] at h
          rw [← h.1]
          exact ih c₁ r2.1 r2.2 hcs (by rw [hall])

/-- C5: a cell marker whose parsed index is outside `[0, cellCount)` is
    dropped without throwing: `updateCellSafely` leaves every cell untouched
    for an out-of-range index (so the dropped segment's content never reaches
    the visible notebook and no other cell's content is altered by it), every
    streaming cell write goes through it via the write-event replay, the
    streaming demultiplexer completes without error regardless of the marker
    indices it encounters, and the non-streaming per-segment loop skips the
    out-of-range segment entirely. -/
theorem c5_out_of_range :
    (∀ (cells : List (List Char)) (i : Nat) (content : List Char),
      cells.length ≤ i → updateCellSafely cells i content = cells) ∧
    (∀ (cells : List (List Char)) (i : Nat) (v : List Char)
      (ws : List (Nat × List Char)), cells.length ≤ i →
      applyWrites cells ((i, v) :: ws) = applyWrites cells ws) ∧
    (∀ (cells chunks : List (List Char)), chunks ≠ [] →
      (chunks.map List.length).sum ≤ MAX_BUFFER_SIZE →
      ∃ out, notebookMigrationStreamingRun cells chunks = .ok out) ∧
    (∀ (cells : List (List Char)) (g : List Char) (i : Nat)
      (segs : List (List Char)), parseCellIndex g = some i →
      cells.length ≤ i →
      applySegments cells (g :: segs) = applySegments cells segs) := by
  refine ⟨fun cells i content h => updateCellSafely_out_of_range cells content h,
    fun cells i v ws h => applyWrites_out_of_range cells v ws h,
    ?_,
    fun cells g i segs hp h => applySegments_out_of_range cells segs hp h⟩
  intro cells chunks hne hlen
  obtain ⟨C, w, hall, _⟩ := feedAllC_ok chunks initDemuxCore
    (by simpa [initDemuxCore] using hlen)
  have hrd := feedAllC_rd chunks initDemuxCore C w hne hall
  refine ⟨applyWrites cells (w ++ finalizeC C), ?_⟩
  rw [run_eq_of_feedAll hall, if_pos hrd]

/-- Concrete instance: a marker referencing cell 7 of a 1-cell notebook is
    dropped, the stream completes, and the junk content reaches no cell. -/
theorem c5_witness :
    updateCellSafely ["a".data, "b".data] 5 ("X".data) = ["a".data, "b".data] ∧
    (∃ out, notebookMigrationStreamingRun ["old".data]
      ["### Notebook_Cell_7\nJUNK".data] = .ok out) ∧
    applySegments ["old".data] ["### Notebook_Cell_7\nJUNK\n".data] =
      applySegments ["old".data] [] :=
  ⟨c5_out_of_range.1 ["a".data, "b".data] 5 ("X".data) (by decide),
   c5_out_of_range.2.2.1 ["old".data] ["### Notebook_Cell_7\nJUNK".data]
     (by decide) (by decide),
   c5_out_of_range.2.2.2 ["old".data] ("### Notebook_Cell_7\nJUNK\n".data) 7 []
     (by decide) (by decide)⟩

/-! ## The SSE frame decoder (`api.ts`, `postModelPromptStreaming`)

`JSON.parse` and the shape of the parsed objects are host-library
functionality; the decoder is parameterised over an oracle describing them:
`parse` returns `none` exactly when `JSON.parse` throws a `SyntaxError`,
`errorField d` is `some msg` exactly when `data.error` is truthy with
message `msg`, and `typeField d` is the string value of `data.type` when
present.  The cooperative `signal?.aborted` checks carry no data and are
not modelled (the claims quantify over the chunks actually processed). -/

structure JsonOracle (J : Type) where
  parse : List Char → Option J
  errorField : J → Option (List Char)
  typeField : J → Option (List Char)

inductive StreamErr where
  | bufferOverflow
  | backend (msg : List Char)
deriving DecidableEq

/-- `STREAM_DATA_PREFIX = 'data: '`. -/
def streamDataMark : List Char := "data: ".data

/-- `parseSSEDataLine` (`api.ts` lines 225–267): lines not starting with
    `'data: '` yield no frame; an empty payload yields no frame; a JSON
    parse failure (`SyntaxError`) is logged and yields no frame; a parsed
    object with a truthy `error` field aborts the stream unless its `type`
    is `'chunk_processing_error'`, in which case the chunk is dropped. -/
def parseSSEDataLine {J : Type} (O : JsonOracle J) (line : List Char) :
    Except StreamErr (Option J) :=
  if streamDataMark.isPrefixOf line then
    let jsonStr := line.drop streamDataMark.length
    if jsonStr = [] then .ok none
    else
      match O.parse jsonStr with
      | none => .ok none
      | some d =>
        match O.errorField d with
        | some e =>
          if O.typeField d ≠ some ("chunk_processing_error".data) then
            .error (.backend e)
          else .ok none
        | none => .ok (some d)
  else .ok none

/-- The `for (const line of lines)` loop: trim each complete line, parse it,
    and yield the parsed frames in order. -/
def processLines {J : Type} (O : JsonOracle J) :
    List (List Char) → Except StreamErr (List J)
  | [] => .ok []
  | l :: ls => do
    let d ← parseSSEDataLine O (trimL l)
    let rest ← processLines O ls
    match d with
    | some v => .ok (v :: rest)
    | none => .ok rest

/-- One iteration of the chunk loop of `postModelPromptStreaming`:
    accumulate the chunk, enforce the 1 MiB bound, split on `'\n'`, keep the
    last (possibly incomplete) line in the buffer (`lines.pop() || ''`), and
    process the complete lines. -/
def promptStreamStep {J : Type} (O : JsonOracle J) (buffer chunk : List Char) :
    Except StreamErr (List J × List Char) :=
  let buf := buffer ++ chunk
  if MAX_BUFFER_SIZE < buf.length then .error .bufferOverflow
  else
    let parts := splitNl buf
    let buffer2 := parts.getLast?.getD []
    (processLines O parts.dropLast).map (fun js => (js, buffer2))

/-- The whole chunk loop, threading the carry-over buffer. -/
def promptStreamSteps {J : Type} (O : JsonOracle J) :
    List Char → List (List Char) → Except StreamErr (List J × List Char)
  | buffer, [] => .ok ([], buffer)
  | buffer, c :: cs => do
    let r1 ← promptStreamStep O buffer c
    let r2 ← promptStreamSteps O r1.2 cs
    .ok (r1.1 ++ r2.1, r2.2)

/-- After the loop: `if (buffer.trim())`, parse the trimmed remainder as a
    final frame. -/
def promptStreamFinish {J : Type} (O : JsonOracle J) (buffer : List Char) :
    Except StreamErr (List J) :=
  if trimL buffer = [] then .ok []
  else do
    let d ← parseSSEDataLine O (trimL buffer)
    match d with
    | some v => .ok [v]
    | none => .ok []

/-- `postModelPromptStreaming`, restricted to the frames it yields. -/
def postModelPromptStreamingRun {J : Type} (O : JsonOracle J)
    (chunks : List (List Char)) : Except StreamErr (List J) := do
  let r ← promptStreamSteps O [] chunks
  let fin ← promptStreamFinish O r.2
  .ok (r.1 ++ fin)

/-! ## C4: one malformed JSON line among valid data lines -/

/-- The JSON payload of a line, after trimming and prefix stripping. -/
def linePayload (l : List Char) : List Char :=
  (trimL l).drop streamDataMark.length

/-- A well-formed `data: ` line with a non-empty payload. -/
def isDataLine (l : List Char) : Prop :=
  streamDataMark.isPrefixOf (trimL l) = true ∧ linePayload l ≠ []

/-- A data line whose payload parses to an error-free JSON object. -/
def validDataLine {J : Type} (O : JsonOracle J) (l : List Char) : Prop :=
  isDataLine l ∧ ∃ d, O.parse (linePayload l) = some d ∧ O.errorField d = none

/-- A data line whose payload fails to parse (`SyntaxError`). -/
def malformedDataLine {J : Type} (O : JsonOracle J) (l : List Char) : Prop :=
  isDataLine l ∧ O.parse (linePayload l) = none

/-- The frame a single line contributes (none for skipped or corrupt lines). -/
def lineFrame {J : Type} (O : JsonOracle J) (l : List Char) : Option J :=
  match parseSSEDataLine O (trimL l) with
  | .ok od => od
  | .error _ => none

theorem parseSSE_valid {J : Type} (O : JsonOracle J) {l : List Char} {d : J}
    (hd : streamDataMark.isPrefixOf (trimL l) = true)
    (hne : linePayload l ≠ []) (hp : O.parse (linePayload l) = some d)
    (herr : O.errorField d = none) :
    parseSSEDataLine O (trimL l) = .ok (some d) := by
  unfold parseSSEDataLine
  rw [if_pos hd]
  unfold linePayload at hne hp
  rw [if_neg hne, hp]
  dsimp only
  rw [herr]

theorem parseSSE_malformed {J : Type} (O : JsonOracle J) {l : List Char}
    (h : malformedDataLine O l) :
    parseSSEDataLine O (trimL l) = .ok none := by
  obtain ⟨⟨hd, hne⟩, hp⟩ := h
  unfold parseSSEDataLine
  rw [if_pos hd]
  unfold linePayload at hne hp
  rw [if_neg hne, hp]

theorem splitNl_line {l : List Char} (hnl : '\n' ∉ l) :
    splitNl (l ++ ['\n']) = [l, []] := by
  induction l with
  | nil => rfl
  | cons c cs ih =>
    have hc : c ≠ '\n' := fun h => hnl (by simp [h])
    have hcs : '\n' ∉ cs := fun h => hnl (by simp [h])
    rw [List.cons_append]
    conv_lhs => rw [splitNl]
    rw [if_neg hc, ih hcs]

theorem promptStreamStep_line {J : Type} (O : JsonOracle J) {l : List Char}
    (hnl : '\n' ∉ l) (hlen : l.length + 1 ≤ MAX_BUFFER_SIZE)
    {od : Option J} (hp : parseSSEDataLine O (trimL l) = .ok od) :
    promptStreamStep O [] (l ++ ['\n']) = .ok (od.toList, []) := by
  unfold promptStreamStep
  rw [if_neg (by simp; omega)]
  have hsplit : splitNl (([] : List Char) ++ (l ++ ['\n'])) = [l, []] := by
    rw [List.nil_append]
    exact splitNl_line hnl
  rw [hsplit]
  show (processLines O [l]).map _ = _
  unfold processLines
  rw [hp]
  cases od with
  | none => rfl
  | some v => rfl

/-- The chunk loop over whole lines (one line per chunk, each ending in a
    newline) yields exactly the frames of the lines, in order, with an empty
    carry-over buffer — provided no line's parse aborts the stream. -/
theorem promptStreamSteps_lines {J : Type} (O : JsonOracle J)
    (ls : List (List Char))
    (h : ∀ l ∈ ls, '\n' ∉ l ∧ l.length + 1 ≤ MAX_BUFFER_SIZE ∧
      ∃ od, parseSSEDataLine O (trimL l) = .ok od) :
    promptStreamSteps O [] (ls.map (fun l => l ++ ['\n'])) =
      .ok (ls.filterMap (lineFrame O), []) := by
  induction ls with
  | nil => rfl
  | cons l ls' ih =>
    obtain ⟨hnl, hlen, od, hp⟩ := h l (by simp)
    have hstep := promptStreamStep_line O hnl hlen hp
    show (do
      let r1 ← promptStreamStep O [] (l ++ ['\n'])
      let r2 ← promptStreamSteps O r1.2 (ls'.map (fun l => l ++ ['\n']))
      Except.ok (r1.1 ++ r2.1, r2.2)) = _
    rw [hstep]
    change Bind.bind (promptStreamSteps O [] (ls'.map (fun l => l ++ ['\n']))) _ = _
    rw [ih (fun l hl => h l (by simp [hl]))]
    have hframe : lineFrame O l = od := by
      unfold lineFrame
      rw [hp]
    show Except.ok (od.toList ++ ls'.filterMap (lineFrame O), []) = _
    cases hod : od with
    | none => simp [List.filterMap_cons, hframe, hod]
    | some v => simp [List.filterMap_cons, hframe, hod]

/-- C4: a frame sequence containing exactly one malformed JSON data line
    among otherwise-valid data lines decodes to exactly the valid lines'
    frames, in arrival order, without raising an error: the corrupt frame is
    skipped. -/
theorem c4_single_malformed_line {J : Type} (O : JsonOracle J)
    (A B : List (List Char)) (bad : List Char)
    (hA : ∀ l ∈ A, validDataLine O l ∧ '\n' ∉ l ∧
      l.length + 1 ≤ MAX_BUFFER_SIZE)
    (hB : ∀ l ∈ B, validDataLine O l ∧ '\n' ∉ l ∧
      l.length + 1 ≤ MAX_BUFFER_SIZE)
    (hbad : malformedDataLine O bad ∧ '\n' ∉ bad ∧
      bad.length + 1 ≤ MAX_BUFFER_SIZE) :
    postModelPromptStreamingRun O ((A ++ bad :: B).map (fun l => l ++ ['\n'])) =
      .ok ((A ++ B).filterMap (fun l => O.parse (linePayload l))) := by
  have hok : ∀ l ∈ A ++ bad :: B, '\n' ∉ l ∧ l.length + 1 ≤ MAX_BUFFER_SIZE ∧
      ∃ od, parseSSEDataLine O (trimL l) = .ok od := by
    intro l hl
    rcases List.mem_append.mp hl with h | h
    · obtain ⟨⟨⟨hd, hne⟩, d, hp, herr⟩, hnl, hlen⟩ := hA l h
      exact ⟨hnl, hlen, some d, parseSSE_valid O hd hne hp herr⟩
    · rcases List.mem_cons.mp h with h | h
      · subst h
        exact ⟨hbad.2.1, hbad.2.2, none, parseSSE_malformed O hbad.1⟩
      · obtain ⟨⟨⟨hd, hne⟩, d, hp, herr⟩, hnl, hlen⟩ := hB l h
        exact ⟨hnl, hlen, some d, parseSSE_valid O hd hne hp herr⟩
  have hsteps := promptStreamSteps_lines O (A ++ bad :: B) hok
  unfold postModelPromptStreamingRun
  rw [hsteps]
  show Except.ok ((A ++ bad :: B).filterMap (lineFrame O) ++ []) = _
  rw [List.append_nil]
  congr 1
  have hvalid_frame : ∀ l, validDataLine O l →
      lineFrame O l = O.parse (linePayload l) := by
    intro l ⟨⟨hd, hne⟩, d, hp, herr⟩
    unfold lineFrame
    rw [parseSSE_valid O hd hne hp herr, hp]
  have hbad_frame : lineFrame O bad = none := by
    unfold lineFrame
    rw [parseSSE_malformed O hbad.1]
  rw [List.filterMap_append, List.filterMap_append, List.filterMap_cons,
    hbad_frame]
  rw [List.filterMap_congr (fun l hl => hvalid_frame l (hA l hl).1),
    List.filterMap_congr (fun l hl => hvalid_frame l (hB l hl).1)]

/-- A concrete JSON oracle for witnesses: every payload except the literal
    `"bad json"` parses (to itself), no payload carries an error field. -/
def demoOracle : JsonOracle (List Char) where
  parse := fun s => if s = "bad json".data then none else some s
  errorField := fun _ => none
  typeField := fun _ => none

/-- Concrete instance of C4: a corrupt line between two valid `data: `
    lines is skipped, both valid frames decode in order, no error. -/
theorem c4_witness :
    postModelPromptStreamingRun demoOracle
        ((["data: ok1".data] ++ "data: bad json".data :: ["data: ok2".data]).map
          (fun l => l ++ ['\n'])) =
      .ok (["ok1".data, "ok2".data]) := by
  have h := c4_single_malformed_line demoOracle
    ["data: ok1".data] ["data: ok2".data] ("data: bad json".data)
    (by
      intro l hl
      simp only [List.mem_singleton] at hl
      subst hl
      exact ⟨⟨⟨by decide, by decide⟩, "ok1".data, by decide, rfl⟩,
        by decide, by decide⟩)
    (by
      intro l hl
      simp only [List.mem_singleton] at hl
      subst hl
      exact ⟨⟨⟨by decide, by decide⟩, "ok2".data, by decide, rfl⟩,
        by decide, by decide⟩)
    ⟨⟨⟨by decide, by decide⟩, by decide⟩, by decide, by decide⟩
  rw [h]
  decide

/-! ## C6: claimed NDJSON auto-detection -/

theorem parseSSE_not_data {J : Type} (O : JsonOracle J) {l : List Char}
    (h : streamDataMark.isPrefixOf l = false) :
    parseSSEDataLine O l = .ok none := by
  unfold parseSSEDataLine
  rw [if_neg (by simp [h])]

/-- C6 counterexample: an NDJSON-framed body — one JSON object per line,
    no `'data: '` prefix — yields NO frames from the decoder, even under an
    oracle for which the line's payload parses: `parseSSEDataLine` demands
    the `'data: '` prefix and performs no content-based framing detection. -/
theorem c6_counterexample :
    demoOracle.parse ("ok1".data) = some ("ok1".data) ∧
      postModelPromptStreamingRun demoOracle ["ok1\n".data] = .ok [] := by
  decide

/-- C6 amended: lines that do not begin (after trimming) with `'data: '`
    contribute no frames at all; a whole body of such lines decodes to the
    empty frame list. There is no NDJSON auto-detection. -/
theorem c6_amended {J : Type} (O : JsonOracle J) (ls : List (List Char))
    (h : ∀ l ∈ ls, streamDataMark.isPrefixOf (trimL l) = false ∧ '\n' ∉ l ∧
      l.length + 1 ≤ MAX_BUFFER_SIZE) :
    postModelPromptStreamingRun O (ls.map (fun l => l ++ ['\n'])) = .ok [] := by
  have hsteps := promptStreamSteps_lines O ls (fun l hl => by
    obtain ⟨hp, hnl, hlen⟩ := h l hl
    exact ⟨hnl, hlen, none, parseSSE_not_data O hp⟩)
  unfold postModelPromptStreamingRun
  rw [hsteps]
  show Except.ok (ls.filterMap (lineFrame O) ++ []) = _
  rw [List.append_nil]
  congr 1
  refine List.filterMap_eq_nil_iff.mpr ?_
  intro l hl
  unfold lineFrame
  rw [parseSSE_not_data O (h l hl).1]

/-- Concrete instance of C6 amended: two prefix-less JSON lines, zero
    frames. -/
theorem c6_amended_witness :
    postModelPromptStreamingRun demoOracle
        ((["ok2".data, "ok3".data]).map (fun l => l ++ ['\n'])) = .ok [] := by
  exact c6_amended demoOracle ["ok2".data, "ok3".data] (by decide)

/-! ## C3: 1 MiB buffer bound, fatal overflow, no silent truncation -/

/-- Every segment produced by `splitNl` is no longer than the input. -/
theorem splitNl_mem_length (l : List Char) :
    ∀ p ∈ splitNl l, p.length ≤ l.length := by
  induction l with
  | nil =>
    intro p hp
    simp only [splitNl, List.mem_singleton] at hp
    subst hp
    exact Nat.le_refl _
  | cons c tl ih =>
    intro p hp
    simp only [splitNl] at hp
    by_cases h : c = '\n'
    · rw [if_pos h] at hp
      rcases List.mem_cons.mp hp with h1 | h1
      · subst h1; simp
      · exact Nat.le_trans (ih p h1) (by simp)
    · rw [if_neg h] at hp
      cases hs : splitNl tl with
      | nil => exact absurd hs (splitNl_ne_nil tl)
      | cons hd t =>
        rw [hs] at hp
        rcases List.mem_cons.mp hp with h1 | h1
        · subst h1
          have := ih hd (by rw [hs]; exact List.mem_cons_self hd t)
          simp only [List.length_cons]
          omega
        · have := ih p (by rw [hs]; exact List.mem_cons_of_mem hd h1)
          simp only [List.length_cons]
          omega

theorem promptStreamStep_overflow {J : Type} (O : JsonOracle J)
    (buffer chunk : List Char)
    (h : MAX_BUFFER_SIZE < buffer.length + chunk.length) :
    promptStreamStep O buffer chunk = .error .bufferOverflow := by
  unfold promptStreamStep
  rw [if_pos (show MAX_BUFFER_SIZE < (buffer ++ chunk).length by
    rw [List.length_append]; exact h)]

theorem feedChunkC_overflow (core : DemuxCore) (chunk : List Char)
    (h : MAX_BUFFER_SIZE < core.buffer.length + chunk.length) :
    feedChunkC core chunk = .error .bufferOverflow := by
  unfold feedChunkC
  rw [if_pos (show MAX_BUFFER_SIZE < (recvState core chunk).buffer.length by
    simp only [recvState, List.length_append]; exact h)]

/-- C3: the 1 MiB bound is enforced on each append in both streaming
    consumers, exceeding it is a fatal per-stream error, and successful
    processing neither exceeds the bound nor drops buffered characters:
    (1) the frame decoder's chunk step fails with `bufferOverflow` whenever
    the carried buffer plus the incoming chunk exceeds 1 MiB;
    (2) a single fragment of 1 MiB + 1 bytes aborts the whole decoder run;
    (3) on a successful decoder step the carried buffer is within the bound
    and the processed lines plus the carried remainder reconstruct the
    entire appended data — nothing is truncated;
    (4) the migration demultiplexer's chunk step fails with
    `bufferOverflow` whenever its buffer plus the chunk exceeds 1 MiB;
    (5) a single fragment of 1 MiB + 1 bytes aborts the whole migration
    streaming run; and
    (6) on a successful demultiplexer step the residual buffer is within
    the bound. -/
theorem c3_buffer_bound {J : Type} (O : JsonOracle J) :
    (∀ (buffer chunk : List Char),
      MAX_BUFFER_SIZE < buffer.length + chunk.length →
        promptStreamStep O buffer chunk = .error .bufferOverflow) ∧
    (∀ chunk : List Char, MAX_BUFFER_SIZE < chunk.length →
        postModelPromptStreamingRun O [chunk] = .error .bufferOverflow) ∧
    (∀ (buffer chunk : List Char) (js : List J) (buf2 : List Char),
      promptStreamStep O buffer chunk = .ok (js, buf2) →
        buf2.length ≤ MAX_BUFFER_SIZE ∧
        joinNl ((splitNl (buffer ++ chunk)).dropLast ++ [buf2]) =
          buffer ++ chunk) ∧
    (∀ (core : DemuxCore) (chunk : List Char),
      MAX_BUFFER_SIZE < core.buffer.length + chunk.length →
        feedChunkC core chunk = .error .bufferOverflow) ∧
    (∀ (cells : List (List Char)) (chunk : List Char),
      MAX_BUFFER_SIZE < chunk.length →
        notebookMigrationStreamingRun cells [chunk] =
          .error .bufferOverflow) ∧
    (∀ (core C : DemuxCore) (chunk : List Char) (w : List (Nat × List Char)),
      feedChunkC core chunk = .ok (C, w) →
        C.buffer.length ≤ MAX_BUFFER_SIZE) := by
  refine ⟨promptStreamStep_overflow O, ?_, ?_, feedChunkC_overflow, ?_, ?_⟩
  · intro chunk h
    have hstep : promptStreamStep O [] chunk = .error .bufferOverflow :=
      promptStreamStep_overflow O [] chunk (by simpa using h)
    have hsteps : promptStreamSteps O [] [chunk] = .error .bufferOverflow := by
      unfold promptStreamSteps
      rw [hstep]
      rfl
    unfold postModelPromptStreamingRun
    rw [hsteps]
    rfl
  · intro buffer chunk js buf2 h
    unfold promptStreamStep at h
    by_cases hb : MAX_BUFFER_SIZE < (buffer ++ chunk).length
    · rw [if_pos hb] at h
      exact absurd h (by simp)
    · rw [if_neg hb] at h
      dsimp only at h
      cases hp : processLines O (splitNl (buffer ++ chunk)).dropLast with
      | error e =>
        rw [hp] at h
        exact absurd h (by simp [Except.map])
      | ok v =>
        rw [hp] at h
        simp only [Except.map, Except.ok.injEq, Prod.mk.injEq] at h
        have hbuf2 : buf2 = (splitNl (buffer ++ chunk)).getLast?.getD [] :=
          h.2.symm
        have hne := splitNl_ne_nil (buffer ++ chunk)
        have hgl : (splitNl (buffer ++ chunk)).getLast? =
            some ((splitNl (buffer ++ chunk)).getLast hne) :=
          List.getLast?_eq_getLast _ hne
        have hbuf2g : buf2 = (splitNl (buffer ++ chunk)).getLast hne := by
          rw [hbuf2, hgl]
          rfl
        constructor
        · rw [hbuf2g]
          have hmem : (splitNl (buffer ++ chunk)).getLast hne ∈
              splitNl (buffer ++ chunk) := List.getLast_mem hne
          have := splitNl_mem_length (buffer ++ chunk) _ hmem
          rw [List.length_append] at this hb
          omega
        · rw [hbuf2g, List.dropLast_concat_getLast hne]
          exact splitNl_reconstruct _
  · intro cells chunk h
    have hfc : feedChunkC initDemuxCore chunk = .error .bufferOverflow :=
      feedChunkC_overflow initDemuxCore chunk (by
        simp only [initDemuxCore, List.length_nil]
        omega)
    have hall : feedAllC initDemuxCore [chunk] = .error .bufferOverflow := by
      unfold feedAllC
      rw [hfc]
      rfl
    unfold notebookMigrationStreamingRun
    rw [hall]
    rfl
  · intro core C chunk w h
    unfold feedChunkC at h
    by_cases hb : MAX_BUFFER_SIZE < (recvState core chunk).buffer.length
    · rw [if_pos hb] at h
      exact absurd h (by simp)
    · rw [if_neg hb] at h
      dsimp only at h
      have hC : C = (markerLoopC (recvState core chunk)).1 := by
        injection h with h1
        exact (congrArg Prod.fst h1).symm
      rw [hC]
      exact Nat.le_trans
        (List.IsSuffix.length_le (markerLoopC_buffer_suffix _))
        (Nat.le_of_not_lt hb)

/-- Concrete instance of C3: a single fragment of 1 MiB + 1 bytes aborts
    both the frame decoder and the migration demultiplexer with
    `bufferOverflow`. -/
theorem c3_witness :
    postModelPromptStreamingRun demoOracle
        [List.replicate (MAX_BUFFER_SIZE + 1) 'a'] =
      .error .bufferOverflow ∧
    notebookMigrationStreamingRun [['x']]
        [List.replicate (MAX_BUFFER_SIZE + 1) 'a'] =
      .error .bufferOverflow :=
  ⟨(c3_buffer_bound demoOracle).2.1 _
      (by rw [List.length_replicate]; exact Nat.lt_succ_self _),
   (c3_buffer_bound demoOracle).2.2.2.2.1 [['x']] _
      (by rw [List.length_replicate]; exact Nat.lt_succ_self _)⟩

/-! ## C7: extraction of the generated text from a decoded chunk

`getGeneratedText` (`api.ts` lines 741–743 and the later revision, identical):
`return json?.generated_text ?? json?.results[0].generated_text ?? '';`.
We embed the JSON values reachable here and the exact JavaScript semantics of
optional chaining (`?.` guards only the receiver it is attached to), plain
member/index access (throws `TypeError` on `null`/`undefined`, yields
`undefined` for a missing member), and nullish coalescing (`??` takes the
left operand unless it is `null`/`undefined`; the right operand is evaluated
only then, and may throw). -/

inductive JsonV where
  | undefinedV
  | null
  | str (s : List Char)
  | num (n : Int)
  | arr (xs : List JsonV)
  | obj (fields : List (List Char × JsonV))

inductive JsErr where
  | typeError
deriving DecidableEq

def isNullish : JsonV → Bool
  | .undefinedV => true
  | .null => true
  | _ => false

def lookupField : List (List Char × JsonV) → List Char → JsonV
  | [], _ => .undefinedV
  | (k, v) :: fs, key => if k = key then v else lookupField fs key

/-- Plain member access `v.k`: throws on nullish receivers, reads the field
    of an object, and yields `undefined` on other receivers. -/
def propVal : JsonV → List Char → Except JsErr JsonV
  | .undefinedV, _ => .error .typeError
  | .null, _ => .error .typeError
  | .obj fs, k => .ok (lookupField fs k)
  | _, _ => .ok .undefinedV

/-- Plain index access `v[i]`: throws on nullish receivers, reads the
    element (or `undefined`) of an array, and yields `undefined` on other
    receivers. -/
def indexVal : JsonV → Nat → Except JsErr JsonV
  | .undefinedV, _ => .error .typeError
  | .null, _ => .error .typeError
  | .arr xs, i => .ok (xs.getD i .undefinedV)
  | _, _ => .ok .undefinedV

def generatedTextKey : List Char := "generated_text".data

def resultsKey : List Char := "results".data

/-- `json?.generated_text ?? json?.results[0].generated_text ?? ''`:
the first `?.` guards only `json`, so the tail `[0].generated_text` of the
second operand is plain (throwing) access; each `??` takes its left operand
unless nullish and only then evaluates its right operand. -/
def getGeneratedText (json : JsonV) : Except JsErr JsonV :=
  match (if isNullish json then .ok .undefinedV
         else propVal json generatedTextKey : Except JsErr JsonV) with
  | .error e => .error e
  | .ok f =>
    if isNullish f then
      match (if isNullish json then .ok .undefinedV
             else match propVal json resultsKey with
               | .error e => .error e
               | .ok r0 =>
                 match indexVal r0 0 with
                 | .error e => .error e
                 | .ok r1 => propVal r1 generatedTextKey :
             Except JsErr JsonV) with
      | .error e => .error e
      | .ok n => if isNullish n then .ok (.str []) else .ok n
    else .ok f

theorem isNullish_obj (fs : List (List Char × JsonV)) :
    isNullish (JsonV.obj fs) = false := rfl

/-- C7 counterexample: for a JSON object carrying neither a `generated_text`
    field nor a `results` field, the extraction THROWS a `TypeError`
    (`undefined[0]` inside the unguarded tail of the optional chain) instead
    of yielding the empty string. -/
theorem c7_counterexample :
    getGeneratedText (JsonV.obj []) = .error .typeError := rfl

/-- C7 amended: the flat `generated_text` field takes precedence when it is
    non-nullish; when it is nullish the nested `results[0].generated_text`
    is used if that path exists; a nullish `json` itself yields the empty
    string; but when `json` is an object whose `generated_text` and
    `results` fields are both nullish, the extraction throws a `TypeError`
    rather than yielding a defined result. -/
theorem c7_amended :
    (∀ fs : List (List Char × JsonV),
      isNullish (lookupField fs generatedTextKey) = false →
        getGeneratedText (JsonV.obj fs) =
          .ok (lookupField fs generatedTextKey)) ∧
    (∀ (fs gs : List (List Char × JsonV)) (rest : List JsonV),
      isNullish (lookupField fs generatedTextKey) = true →
      lookupField fs resultsKey = JsonV.arr (JsonV.obj gs :: rest) →
      isNullish (lookupField gs generatedTextKey) = false →
        getGeneratedText (JsonV.obj fs) =
          .ok (lookupField gs generatedTextKey)) ∧
    (getGeneratedText JsonV.undefinedV = .ok (.str []) ∧
      getGeneratedText JsonV.null = .ok (.str [])) ∧
    (∀ fs : List (List Char × JsonV),
      isNullish (lookupField fs generatedTextKey) = true →
      isNullish (lookupField fs resultsKey) = true →
        getGeneratedText (JsonV.obj fs) = .error .typeError) := by
  refine ⟨?_, ?_, ⟨rfl, rfl⟩, ?_⟩
  · intro fs h
    simp [getGeneratedText, propVal, isNullish_obj, h]
  · intro fs gs rest h hres hg
    simp [getGeneratedText, propVal, indexVal, isNullish_obj, h, hres, hg]
  · intro fs h hres
    cases hv : lookupField fs resultsKey with
    | undefinedV => simp [getGeneratedText, propVal, indexVal, isNullish_obj, h, hv]
    | null => simp [getGeneratedText, propVal, indexVal, isNullish_obj, h, hv]
    | str s => rw [hv] at hres; exact absurd hres (by simp [isNullish])
    | num n => rw [hv] at hres; exact absurd hres (by simp [isNullish])
    | arr xs => rw [hv] at hres; exact absurd hres (by simp [isNullish])
    | obj gs => rw [hv] at hres; exact absurd hres (by simp [isNullish])

/-- Concrete instance of C7 amended: a non-nullish flat field wins even
    when the nested shape is also present. -/
theorem c7_witness :
    getGeneratedText (JsonV.obj
        [(generatedTextKey, JsonV.str ("hi".data)),
         (resultsKey, JsonV.arr
           [JsonV.obj [(generatedTextKey, JsonV.str ("nested".data))]])]) =
      .ok (JsonV.str ("hi".data)) := by
  have h := c7_amended.1
    [(generatedTextKey, JsonV.str ("hi".data)),
     (resultsKey, JsonV.arr
       [JsonV.obj [(generatedTextKey, JsonV.str ("nested".data))]])]
    (by rfl)
  rw [h]
  rfl

/-! ## C8: active-request counter and busy indicator

`StatusBarWidget` (newer revision, lines 71–86): `setLoadingStatus` does
`this._activeRequestCount++` (spinner added at count 1);
`stopLoadingStatus` does
`this._activeRequestCount = Math.max(0, this._activeRequestCount - 1)`
(spinner removed at count 0). We model the UI calls a streaming session
makes as an event trace: `promptPromiseStreaming` calls `setLoadingStatus`
once at the top of its body; `autoCompleteStreaming` calls
`stopLoadingStatus` in its `finally`; the provider's `stream` method calls
`stopLoadingStatus` in its own `finally`; `cancelStream` calls
`stopLoadingStatus` again for a registered stream. -/

inductive UiEvent where
  | setLoading
  | stopLoading

/-- How a streaming session ends. -/
inductive StreamOutcome where
  | success
  | backendError
  | aborted
  | tokenError
  | noModel
  | disclaimerRefused

/-- `promptPromiseStreaming` body: `StatusBarWidget.widget.setLoadingStatus()`
    then the chunk loop (no further UI calls). -/
def promptPromiseStreamingUi : List UiEvent := [.setLoading]

/-- The status-bar calls `autoCompleteStreaming` makes, by outcome: the
    generator body of `promptPromiseStreaming` runs (and increments) only
    when a model is selected, the disclaimer is accepted and the token check
    passed; the `finally` block always calls `stopLoadingStatus` once. -/
def autoCompleteStreamingUi : StreamOutcome → List UiEvent
  | .success => promptPromiseStreamingUi ++ [.stopLoading]
  | .backendError => promptPromiseStreamingUi ++ [.stopLoading]
  | .aborted => promptPromiseStreamingUi ++ [.stopLoading]
  | .tokenError => [.stopLoading]
  | .noModel => [.stopLoading]
  | .disclaimerRefused => [.stopLoading]

/-- `QiskitInlineCompletionProvider.stream` (lines 455–504): iterate the
    `autoCompleteStreaming` generator, then its `finally` always calls
    `stopLoadingStatus` once more. -/
def streamMethodUi (o : StreamOutcome) : List UiEvent :=
  autoCompleteStreamingUi o ++ [.stopLoading]

/-- `cancelStream` on a registered token: aborts and calls
    `stopLoadingStatus` once more. -/
def cancelStreamUi : List UiEvent := [.stopLoading]

def setLoadingStatusC (c : Nat) : Nat := c + 1

/-- `Math.max(0, c - 1)` is truncated subtraction on `Nat`. -/
def stopLoadingStatusC (c : Nat) : Nat := c - 1

def runEvents (c : Nat) : List UiEvent → Nat
  | [] => c
  | .setLoading :: es => runEvents (setLoadingStatusC c) es
  | .stopLoading :: es => runEvents (stopLoadingStatusC c) es

def isStop : UiEvent → Bool
  | .stopLoading => true
  | .setLoading => false

def countStops (es : List UiEvent) : Nat := es.countP isStop

/-- C8 counterexample: a successful streaming session calls
    `stopLoadingStatus` TWICE (the generator's `finally` and the stream
    method's `finally`) — not exactly once — and, run while one other
    request is active, drags the shared counter from 1 to 0, hiding the
    busy indicator while that other request is still in flight. -/
theorem c8_counterexample :
    countStops (streamMethodUi .success) = 2 ∧
      runEvents 1 (streamMethodUi .success) = 0 := by
  decide

/-- C8 amended: every streaming session triggers exactly TWO decrements of
    the shared active-request counter regardless of outcome, an explicit
    cancellation adds a third, a session performs at most one increment, and
    the counter is floored at zero on each decrement, so a session run
    concurrently with one other active request always zeroes the counter. -/
theorem c8_amended :
    (∀ o : StreamOutcome, countStops (streamMethodUi o) = 2) ∧
    (∀ o : StreamOutcome,
      countStops (streamMethodUi o ++ cancelStreamUi) = 3) ∧
    (∀ o : StreamOutcome,
      countStops (autoCompleteStreamingUi o) = 1) ∧
    (∀ o : StreamOutcome, runEvents 1 (streamMethodUi o) = 0) ∧
    (∀ c : Nat, stopLoadingStatusC c = c - 1) := by
  refine ⟨?_, ?_, ?_, ?_, fun c => rfl⟩ <;> intro o <;> cases o <;> decide

/-! ## C9: adaptive streaming timeout

`QiskitInlineCompletionProvider.fetch` (lines 364–374):
`const baseTimeout = (this.schema.default as any).timeout || 30000;`
`const contextBonus = Math.min(Math.floor(text.length / 50), 60000);`
`const timeout = baseTimeout + contextBonus;`
with `schema.default = \x7b enabled: true, timeout: 15000 \x7d` (line 146). -/

/-- The provider's configured `schema.default.timeout`. -/
def schemaDefaultTimeout : Option Nat := some 15000

/-- JavaScript `x || d` on a possibly-absent number: absent or `0` (falsy)
    picks the default. -/
def jsOrDefault (x : Option Nat) (d : Nat) : Nat :=
  match x with
  | none => d
  | some v => if v = 0 then d else v

/-- The adaptive timeout computed by `fetch` for input text of length
    `textLen` (floor division is `Nat` division). -/
def fetchStreamingTimeout (textLen : Nat) : Nat :=
  let baseTimeout := jsOrDefault schemaDefaultTimeout 30000
  let contextBonus := min (textLen / 50) 60000
  baseTimeout + contextBonus

/-- C9: for every input length `L` the enforced streaming timeout is
    `base + min(floor(L / 50), 60000)` with the configured base of 15000 ms
    (the `|| 30000` fallback applies only to an absent or zero
    configuration); the timeout is monotone in the input length and capped
    at 75000 ms. -/
theorem c9_adaptive_timeout :
    (∀ L : Nat, fetchStreamingTimeout L = 15000 + min (L / 50) 60000) ∧
    (jsOrDefault none 30000 = 30000 ∧ jsOrDefault (some 0) 30000 = 30000) ∧
    (∀ L d : Nat, fetchStreamingTimeout L ≤ fetchStreamingTimeout (L + d)) ∧
    (∀ L : Nat, fetchStreamingTimeout L ≤ 75000) := by
  refine ⟨fun L => rfl, ⟨rfl, rfl⟩, ?_, ?_⟩
  · intro L d
    show 15000 + min (L / 50) 60000 ≤ 15000 + min ((L + d) / 50) 60000
    have h : L / 50 ≤ (L + d) / 50 :=
      Nat.div_le_div_right (Nat.le_add_right L d)
    omega
  · intro L
    show 15000 + min (L / 50) 60000 ≤ 75000
    omega

/-! ## C10: the one-shot completion entry point never rejects

`autoComplete` (`part_008` lines 156–213, the active revision of the old
`api.ts` lines 785–822): `checkAPIToken().then(...)` — no model selected or
disclaimer refused resolve with `emptyReturn`; a selected model with an
accepted disclaimer awaits `promptPromise` — and a trailing
`.catch(reason => ... return emptyReturn)` that converts EVERY rejection
(token-check failure, network or HTTP error from the prompt, abort) into a
resolution with `emptyReturn = \x7b items: [], prompt_id: '', input: '' \x7d`. -/

structure CompletionReturn where
  items : List (List Char)
  prompt_id : List Char
  input : List Char

def emptyReturn : CompletionReturn :=
  { items := [], prompt_id := [], input := [] }

inductive JsReason where
  | abortError
  | tokenError
  | networkError

/-- The environment a call of `autoComplete` runs against: the outcome of
    `checkAPIToken()`, the current model, its stored disclaimer-acceptance
    flag, the user's answer to `showDisclaimer`, and the outcome of
    `promptPromise` (the actual HTTP prompt). -/
structure AutoCompleteEnv where
  tokenCheck : Except JsReason Unit
  currentModel : Option (List Char)
  disclaimerAccepted : Bool
  showDisclaimerResult : Bool
  promptResult : Except JsReason CompletionReturn

/-- The `.then` chain of `autoComplete` before the `.catch`. -/
def autoCompleteBody (env : AutoCompleteEnv) :
    Except JsReason CompletionReturn := do
  let _ ← env.tokenCheck
  match env.currentModel with
  | none => .ok emptyReturn
  | some _ =>
    if env.disclaimerAccepted then env.promptResult
    else if env.showDisclaimerResult then env.promptResult
    else .ok emptyReturn

/-- `promise.catch(handler)`. -/
def jsCatch (p : Except JsReason CompletionReturn)
    (handler : JsReason → Except JsReason CompletionReturn) :
    Except JsReason CompletionReturn :=
  match p with
  | .ok r => .ok r
  | .error e => handler e

/-- `autoComplete`: the chain with its `.catch(reason => ... emptyReturn)`. -/
def autoCompleteRun (env : AutoCompleteEnv) :
    Except JsReason CompletionReturn :=
  jsCatch (autoCompleteBody env) (fun _ => .ok emptyReturn)

/-- C10: `autoComplete` never rejects — it always resolves, and on every
    failure class (token-check rejection, no model selected, disclaimer
    refused, prompt rejection of any kind including network/HTTP errors and
    aborts) it resolves with the sentinel `emptyReturn` (empty items, empty
    prompt id, empty input). -/
theorem c10_never_rejects :
    (∀ env : AutoCompleteEnv, ∃ r, autoCompleteRun env = .ok r) ∧
    (∀ (env : AutoCompleteEnv) (e : JsReason), env.tokenCheck = .error e →
      autoCompleteRun env = .ok emptyReturn) ∧
    (∀ env : AutoCompleteEnv, env.tokenCheck = .ok () →
      env.currentModel = none →
      autoCompleteRun env = .ok emptyReturn) ∧
    (∀ env : AutoCompleteEnv, env.tokenCheck = .ok () →
      env.disclaimerAccepted = false → env.showDisclaimerResult = false →
      autoCompleteRun env = .ok emptyReturn) ∧
    (∀ (env : AutoCompleteEnv) (e : JsReason), env.tokenCheck = .ok () →
      env.promptResult = .error e →
      autoCompleteRun env = .ok emptyReturn) := by
  refine ⟨?_, ?_, ?_, ?_, ?_⟩
  · intro env
    cases h : autoCompleteBody env with
    | ok r => exact ⟨r, by unfold autoCompleteRun; rw [h]; rfl⟩
    | error e => exact ⟨emptyReturn, by unfold autoCompleteRun; rw [h]; rfl⟩
  · intro env e he
    unfold autoCompleteRun autoCompleteBody
    rw [he]
    rfl
  · intro env ht hm
    unfold autoCompleteRun autoCompleteBody
    rw [ht, hm]
    rfl
  · intro env ht hda hsd
    unfold autoCompleteRun autoCompleteBody
    rw [ht]
    cases hm : env.currentModel with
    | none => rfl
    | some m =>
      rw [hda, hsd]
      rfl
  · intro env e ht hp
    unfold autoCompleteRun autoCompleteBody
    rw [ht]
    cases hm : env.currentModel with
    | none => rfl
    | some m =>
      cases hda : env.disclaimerAccepted with
      | true =>
        rw [hp]
        rfl
      | false =>
        cases hsd : env.showDisclaimerResult with
        | true =>
          rw [hp]
          rfl
        | false => rfl

/-- Concrete instance of C10: with a valid token, a selected model with an
    accepted disclaimer, and a prompt that fails with a network error,
    `autoComplete` resolves with `emptyReturn`. -/
theorem c10_witness :
    autoCompleteRun
        { tokenCheck := .ok (), currentModel := some ("m1".data),
          disclaimerAccepted := true, showDisclaimerResult := true,
          promptResult := .error .networkError } =
      .ok emptyReturn :=
  c10_never_rejects.2.2.2.2
    { tokenCheck := .ok (), currentModel := some ("m1".data),
      disclaimerAccepted := true, showDisclaimerResult := true,
      promptResult := .error .networkError }
    .networkError rfl rfl
